import Mathlib

/-!
Verification of the `release-version` tool (a semantic-version bumping
workflow) against its natural-language specification.

The development shallowly embeds the program's core:
  * `src/release_version/utils.py`: `sub_named_groups`, `Version`,
    `read_version`, `write_version`, `Repo.commits_since`, `read_changelog`;
  * `src/release_version/main.py`: `update_changelog` and `main`.

Text is modelled as `List Char`.  Regular-expression patterns are external
collaborators (Python's `re`); a compiled pattern is modelled by its static
data (`groups`, `groupindex`) together with the match enumeration the engine
produces for a given subject string (the list of non-overlapping matches,
with the spans of every capture group), exactly the data the source code
consumes.  Filesystem, git and terminal interaction are modelled by explicit
environments and an event trace.
-/

namespace ReleaseVersion

/-- Program text: Python `str`, modelled as a list of characters. -/
abbrev Str := List Char

/-- Character data of a Lean string literal. -/
def str (s : String) : Str := s.data

/-- Python `s[i:j]` for `0 ≤ i ≤ j` (clamping at the ends like Python). -/
def sliceStr (s : Str) (i j : Nat) : Str := (s.drop i).take (j - i)

/-- The ASCII whitespace characters stripped by Python's `str.strip` family
(`.strip()` also strips some rarer Unicode spaces, which these texts do not
contain; the model uses the ASCII set). -/
def isPySpace (c : Char) : Bool :=
  c = ' ' || c = '\t' || c = '\n' || c = '\r' || c = '\x0b' || c = '\x0c'

/-- Python `str.lstrip()`. -/
def lstripStr (s : Str) : Str := s.dropWhile isPySpace

/-- Python `str.rstrip()`. -/
def rstripStr (s : Str) : Str := (s.reverse.dropWhile isPySpace).reverse

/-- Python `str.strip()`. -/
def stripStr (s : Str) : Str := lstripStr (rstripStr s)

/-- Helper for `splitlinesStr`: accumulates the current line (reversed). -/
def splitlinesGo (acc : Str) : Str → List Str
  | [] => [acc.reverse]
  | c :: rest =>
    if c = '\n' then
      if rest = [] then [acc.reverse] else acc.reverse :: splitlinesGo [] rest
    else splitlinesGo (c :: acc) rest

/-- Python `str.splitlines()` for `\n`-separated text (the only line
terminator produced by git and by the texts handled here). -/
def splitlinesStr (s : Str) : List Str :=
  if s = [] then [] else splitlinesGo [] s

/-- The decimal digit characters, as Python renders one digit of an `int`. -/
def digitChar : Nat → Char
  | 0 => '0' | 1 => '1' | 2 => '2' | 3 => '3' | 4 => '4'
  | 5 => '5' | 6 => '6' | 7 => '7' | 8 => '8' | _ => '9'

/-- Numeric value of a decimal digit character. -/
def charDigit (c : Char) : Nat := c.toNat - 48

/-- Whether a character is an ASCII decimal digit (`\d` on these texts). -/
def isDigitCh (c : Char) : Bool := 48 ≤ c.toNat && c.toNat ≤ 57

/-- Helper for `natChars`: extracts decimal digits of `n` in front of `acc`;
`fuel ≥ n` guarantees enough iterations. -/
def natCharsAux : Nat → Nat → Str → Str
  | 0, _, acc => acc
  | fuel + 1, n, acc =>
      if n = 0 then acc else natCharsAux fuel (n / 10) (digitChar (n % 10) :: acc)

/-- Python `str(n)` for a non-negative `int` `n`: decimal rendering without
leading zeros. -/
def natChars (n : Nat) : Str := if n = 0 then ['0'] else natCharsAux n n []

/-- Value of a string of decimal digits, as computed by Python `int(s)`
on such a string. -/
def parseNat (s : Str) : Nat := s.foldl (fun a c => a * 10 + charDigit c) 0

/-- Python `int(s)` on the captured group text: succeeds on a non-empty
all-digit string; on anything else the call raises (modelled as `none`;
`int` also accepts signs and surrounding whitespace, which `\d`-style
captures never produce). -/
def parseIntChars (s : Str) : Option Nat :=
  if s ≠ [] ∧ s.all isDigitCh then some (parseNat s) else none

/-! ### `Version` (utils.py) -/

/-- `Version`: the immutable (major, minor, patch) triple of `utils.py`. -/
structure Version where
  major : Nat
  minor : Nat
  patch : Nat
deriving DecidableEq, Repr

/-- `Version.next_major`. -/
def Version.nextMajor (v : Version) : Version := ⟨v.major + 1, 0, 0⟩

/-- `Version.next_minor`. -/
def Version.nextMinor (v : Version) : Version := ⟨v.major, v.minor + 1, 0⟩

/-- `Version.next_patch`. -/
def Version.nextPatch (v : Version) : Version := ⟨v.major, v.minor, v.patch + 1⟩

/-- Strict lexicographic (major, minor, patch) order on versions. -/
def Version.lt (a b : Version) : Prop :=
  a.major < b.major ∨
    (a.major = b.major ∧
      (a.minor < b.minor ∨ (a.minor = b.minor ∧ a.patch < b.patch)))

/-- `Version.__str__`: the canonical string `f"{major}.{minor}.{patch}"`. -/
def renderVersion (v : Version) : Str :=
  natChars v.major ++ '.' :: natChars v.minor ++ '.' :: natChars v.patch

/-- `version._asdict()` with components rendered, i.e. the `repl` dictionary
built by `write_version`. -/
def versionDict (v : Version) : List (String × Str) :=
  [("major", natChars v.major), ("minor", natChars v.minor),
   ("patch", natChars v.patch)]

/-! ### Pattern model (`re` is an external collaborator)

A compiled pattern is modelled by its static data — the total number of
capture groups (`re.Pattern.groups`) and the name → group-index map
(`re.Pattern.groupindex`) — together with the list of matches the engine
enumerates on a subject string, which is exactly what `re.sub` iterates
over (non-overlapping matches, left to right) and what `re.search` takes
the head of.  A match records the span of the whole match and the span of
every capture group, the only data `sub_named_groups` and `read_version`
read off a match object. -/

/-- One `re.Match`: the whole-match span and the group spans (1-based group
`i` at list position `i - 1`).  Only matches where every group participated
are modelled (a non-participating group reports span `(-1, -1)` in Python,
which `sub_named_groups` would slice nonsensically; the version patterns
have no optional groups). -/
structure MatchData where
  start0 : Nat
  end0 : Nat
  groupSpans : List (Nat × Nat)
deriving DecidableEq, Repr

/-- Static data of a compiled pattern. -/
structure PatternInfo where
  groups : Nat
  groupindex : List (String × Nat)
deriving DecidableEq, Repr

/-- A compiled pattern together with the engine's match enumeration. -/
structure Pattern where
  info : PatternInfo
  find : Str → List MatchData

/-- The `values` list of `sub_named_groups`:
`values = [""] * pattern.groups`, then `values[idx-1] = repl[key]` for each
`(key, idx)` in `groupindex`; a key absent from the `repl` dictionary
raises `KeyError` (modelled as `none`). -/
def buildValues (p : PatternInfo) (repl : List (String × Str)) :
    Option (List Str) :=
  p.groupindex.foldlM
    (fun vs kv => (repl.lookup kv.1).map (fun v => vs.set (kv.2 - 1) v))
    (List.replicate p.groups [])

/-- The loop of `replfun`:
`for i in range(1, len(values)): output += s[end(i):start(i+1)] + values[i]`
followed by the closing `s[end(len(values)):end(0)]`; `prevEnd` is the end
of the previous group's span and `stop` is `match.end(0)`. -/
def spliceLoop (s : Str) : List Str → List (Nat × Nat) → Nat → Nat → Str
  | v :: vs, (a, b) :: sps, prevEnd, stop =>
      sliceStr s prevEnd a ++ v ++ spliceLoop s vs sps b stop
  | _, _, prevEnd, stop => sliceStr s prevEnd stop

/-- `replfun` of `sub_named_groups`: rebuilds the matched text with each
group span replaced by the corresponding entry of `values`.  With zero
capture groups (`values = []`) the Python code raises `IndexError`
(`values[0]` / `match.start(1)`), modelled as `none`; in Python a match
always carries exactly `pattern.groups` group spans, so the second `none`
arm is unreachable for well-formed matches. -/
def replfun (s : Str) (m : MatchData) (values : List Str) : Option Str :=
  match values, m.groupSpans with
  | v :: vs, (a, b) :: sps =>
      some (sliceStr s m.start0 a ++ v ++ spliceLoop s vs sps b m.end0)
  | _, _ => none

/-- `re.sub(pattern, replfun, string)` over the explicit match list:
copies the gap before each match, emits `replfun`'s output for the match,
and copies the tail after the last match. -/
def reSubFrom (s : Str) (values : List Str) : Nat → List MatchData → Option Str
  | pos, [] => some (s.drop pos)
  | pos, m :: ms => do
      let r ← replfun s m values
      let rest ← reSubFrom s values m.end0 ms
      pure (sliceStr s pos m.start0 ++ r ++ rest)

/-- `sub_named_groups(pattern, repl, string)` from `utils.py`. -/
def subNamedGroups (p : Pattern) (repl : List (String × Str)) (s : Str) :
    Option Str := do
  let values ← buildValues p.info repl
  reSubFrom s values 0 (p.find s)

/-- `write_version(contents, patterns, version)` from `utils.py`: applies
`sub_named_groups` for each pattern in order, each over the previous
result. -/
def writeVersion (contents : Str) (patterns : List Pattern) (v : Version) :
    Option Str :=
  patterns.foldlM (fun c p => subNamedGroups p (versionDict v) c) contents

/-! #### Well-formedness of engine output

Conditions every real match list satisfies and on which the source's
splicing silently relies: group spans lie in increasing order inside the
match span (true for the version patterns, whose groups are not nested),
and the matches handed to `re.sub` are non-overlapping and left-to-right
within the subject. -/

/-- Group spans chained between `lo` and `hi`:
`lo ≤ a₁ ≤ b₁ ≤ a₂ ≤ … ≤ bₙ ≤ hi`. -/
def ChainSpans : Nat → List (Nat × Nat) → Nat → Prop
  | lo, [], hi => lo ≤ hi
  | lo, (a, b) :: sps, hi => lo ≤ a ∧ a ≤ b ∧ ChainSpans b sps hi

instance : ∀ lo sps hi, Decidable (ChainSpans lo sps hi)
  | _, [], _ => inferInstanceAs (Decidable (_ ≤ _))
  | lo, (a, b) :: sps, hi =>
    have := instDecidableChainSpans b sps hi
    inferInstanceAs (Decidable (_ ∧ _ ∧ _))

/-- A single well-formed match for a pattern with `g` capture groups. -/
def MatchWF (m : MatchData) (g : Nat) : Prop :=
  m.groupSpans.length = g ∧ ChainSpans m.start0 m.groupSpans m.end0

instance (m : MatchData) (g : Nat) : Decidable (MatchWF m g) :=
  inferInstanceAs (Decidable (_ ∧ _))

/-- Matches fed to `re.sub` are ordered and non-overlapping, starting at or
after `pos` and ending within a subject of length `len`. -/
def OrderedMatches : Nat → List MatchData → Nat → Prop
  | pos, [], len => pos ≤ len
  | pos, m :: ms, len => pos ≤ m.start0 ∧ OrderedMatches m.end0 ms len

instance : ∀ pos ms len, Decidable (OrderedMatches pos ms len)
  | _, [], _ => inferInstanceAs (Decidable (_ ≤ _))
  | pos, m :: ms, len =>
    have := instDecidableOrderedMatches m.end0 ms len
    inferInstanceAs (Decidable (_ ∧ _))

/-! #### Spec-side descriptions of substitution

`spliceTo` replaces an explicit list of spans by explicit values and keeps
every other character; it is the specification's description of a
substitution.  `claimedSub` is the substitution exactly as the claim C2
words it: only the named-group spans are replaced, all other matched text
— including unnamed-group spans — is kept. -/

/-- Replace the listed spans (ordered, non-overlapping) by the paired
values, copying everything else between `pos` and `stop`. -/
def spliceTo (s : Str) : Nat → List ((Nat × Nat) × Str) → Nat → Str
  | pos, [], stop => sliceStr s pos stop
  | pos, ((a, b), v) :: rest, stop => sliceStr s pos a ++ v ++ spliceTo s b rest stop

/-- The name attached to 1-based group index `i`, if any. -/
def nameOfIndex (p : PatternInfo) (i : Nat) : Option String :=
  (p.groupindex.find? (fun kv => kv.2 = i)).map (fun kv => kv.1)

/-- Substitution as claim C2 states it: within each match, replace exactly
the named-group spans by the replacement for their name and keep all
other text, including unnamed-group spans. -/
def claimedSub (p : Pattern) (repl : List (String × Str)) (s : Str) : Str :=
  spliceTo s 0
    ((p.find s).flatMap (fun m =>
      m.groupSpans.enum.filterMap (fun iv =>
        match nameOfIndex p.info (iv.1 + 1) with
        | some k => (repl.lookup k).map (fun v => (iv.2, v))
        | none => none)))
    s.length

/-- All group spans of all matches paired with the `values` entry that
`sub_named_groups` splices in (unnamed groups pair with `""`). -/
def allGroupSubs (ms : List MatchData) (values : List Str) :
    List ((Nat × Nat) × Str) :=
  ms.flatMap (fun m => m.groupSpans.zip values)

/-- Start of the first substitution span, or `stop` if there is none. -/
def startBound : List ((Nat × Nat) × Str) → Nat → Nat
  | [], stop => stop
  | ((a, _), _) :: _, _ => a

/-- Substitution spans chained between `lo` and `hi`:
`lo ≤ a₁ ≤ b₁ ≤ a₂ ≤ … ≤ bₙ ≤ hi`. -/
def ChainSubs : Nat → List ((Nat × Nat) × Str) → Nat → Prop
  | lo, [], hi => lo ≤ hi
  | lo, ((a, b), _) :: rest, hi => lo ≤ a ∧ a ≤ b ∧ ChainSubs b rest hi

/-- A text is stable under a pattern when the pattern's matches on it are
well-formed and every capture-group span already contains exactly the
value that substitution would splice in (this is how the intended version
patterns behave on already-substituted text: each `\d+` group re-matches
the number just written). -/
def PatStable (p : Pattern) (repl : List (String × Str)) (t : Str) : Prop :=
  ∃ values, buildValues p.info repl = some values ∧
    (p.find t = [] ∨ values ≠ []) ∧
    (∀ m ∈ p.find t, MatchWF m p.info.groups ∧
      ∀ pr ∈ m.groupSpans.zip values, sliceStr t pr.1.1 pr.1.2 = pr.2) ∧
    OrderedMatches 0 (p.find t) t.length

/-! ### `read_version` (utils.py) -/

/-- Python `dict` assignment `d[k] = v`: replaces the value in place if the
key is present, appends otherwise (insertion order preserved). -/
def dictInsert (d : List (String × Str)) (k : String) (v : Str) :
    List (String × Str) :=
  if (d.lookup k).isSome then
    d.map (fun kv => if kv.1 = k then (k, v) else kv)
  else d ++ [(k, v)]

/-- `match.groupdict()`: each named group's captured text, read off the
subject string at the group's span. -/
def groupdict (p : Pattern) (s : Str) (m : MatchData) : List (String × Str) :=
  p.info.groupindex.map (fun kv =>
    (kv.1, match m.groupSpans.get? (kv.2 - 1) with
           | some (a, b) => sliceStr s a b
           | none => []))

/-- The `comps` dictionary built by `read_version`'s loop: for each pattern
with a match (`re.search` = first match), every named group overwrites the
previously recorded text for that name. -/
def collectComps (contents : Str) (patterns : List Pattern) :
    List (String × Str) :=
  patterns.foldl
    (fun comps p =>
      match (p.find contents).head? with
      | some m => (groupdict p contents m).foldl
          (fun c kv => dictInsert c kv.1 kv.2) comps
      | none => comps)
    []

/-- `Version(**comps)`: the `NamedTuple` constructor succeeds exactly when
the keyword set is `{major, minor, patch}`; a missing or unexpected keyword
raises `TypeError` (modelled as `none`) — this is the failure the
specification calls `VersionNotFoundError`. -/
def mkVersion (comps : List (String × Nat)) : Option Version :=
  match comps.lookup "major", comps.lookup "minor", comps.lookup "patch" with
  | some a, some b, some c =>
      if comps.all (fun kv => kv.1 = "major" ∨ kv.1 = "minor" ∨ kv.1 = "patch")
      then some ⟨a, b, c⟩ else none
  | _, _, _ => none

/-- `int()` applied to every collected named-group text, preserving keys;
a single failure aborts the whole call (as the raised `ValueError` would). -/
def convComps : List (String × Str) → Option (List (String × Nat))
  | [] => some []
  | kv :: rest => do
      let n ← parseIntChars kv.2
      let tl ← convComps rest
      pure ((kv.1, n) :: tl)

/-- `read_version(contents, patterns)` from `utils.py`: collect named-group
texts across patterns, convert each with `int`, build the `Version`.
(`int()` is applied inside the collection loop in the source; since any
failure aborts the whole call either way, converting after collection is
an equivalent model.) -/
def readVersion (contents : Str) (patterns : List Pattern) : Option Version := do
  let comps ← convComps (collectComps contents patterns)
  mkVersion comps

/-! ### The canonical version pattern

`(?P<major>\d+)\.(?P<minor>\d+)\.(?P<patch>\d+)` — the pattern the test
suite configures and the one under which the spec states the round-trip
law.  Its engine behaviour is modelled for subjects that begin with a
dotted decimal triple (which every rendered canonical version string
does): the match starts at position 0 and each group greedily takes a
maximal digit run. -/

/-- Match enumeration of the canonical pattern on subjects beginning with
`digits '.' digits '.' digits`. -/
def canonFind (s : Str) : List MatchData :=
  let d1 := s.takeWhile isDigitCh
  let r1 := s.dropWhile isDigitCh
  if d1 ≠ [] ∧ r1.head? = some '.' then
    let s2 := r1.tail
    let d2 := s2.takeWhile isDigitCh
    let r2 := s2.dropWhile isDigitCh
    if d2 ≠ [] ∧ r2.head? = some '.' then
      let s3 := r2.tail
      let d3 := s3.takeWhile isDigitCh
      if d3 ≠ [] then
        let a := d1.length
        let b := a + 1 + d2.length
        let c := b + 1 + d3.length
        [⟨0, c, [(0, a), (a + 1, b), (b + 1, c)]⟩]
      else []
    else []
  else []

/-- The canonical pattern as a compiled-pattern model. -/
def canonPattern : Pattern :=
  ⟨⟨3, [("major", 1), ("minor", 2), ("patch", 3)]⟩, canonFind⟩

/-! ### `read_changelog` (utils.py)

`CHANGELOG_UNRELEASED = re.compile(r"^## Unreleased$", re.M)` and
`CHANGELOG_SECTION = re.compile(r"^##[^#]", re.M)` are fixed patterns;
their multiline search is embedded directly: `^` matches at position 0 or
right after a `'\n'` of the whole subject (also when searching from a
later position, per Python semantics), `$` matches before a `'\n'` or at
the end, and `[^#]` matches any single character except `'#'`, including
`'\n'`. -/

/-- The text of the `## Unreleased` heading. -/
def headingChars : Str := str "## Unreleased"

/-- Whether position `i` of `s` starts a line (`^` with `re.M`). -/
def lineStartAt (s : Str) (i : Nat) : Bool :=
  i = 0 || (i ≤ s.length && s.get? (i - 1) = some '\n')

/-- Whether `^## Unreleased$` matches at position `i`. -/
def unreleasedAt (s : Str) (i : Nat) : Bool :=
  lineStartAt s i && headingChars.isPrefixOf (s.drop i) &&
    (s.drop (i + headingChars.length) = [] ||
     (s.drop (i + headingChars.length)).head? = some '\n')

/-- Whether `^##[^#]` matches at position `i`. -/
def sectionAt (s : Str) (i : Nat) : Bool :=
  lineStartAt s i &&
    (match s.drop i with
     | '#' :: '#' :: c :: _ => c ≠ '#'
     | _ => false)

/-- `CHANGELOG_UNRELEASED.search(s)`: start of the first match. -/
def findUnreleased (s : Str) : Option Nat :=
  (List.range (s.length + 1)).find? (fun i => unreleasedAt s i)

/-- `CHANGELOG_SECTION.search(s, pos)`: start of the first match at or
after `pos`. -/
def findSection (s : Str) (pos : Nat) : Option Nat :=
  (List.range (s.length + 1)).find? (fun i => pos ≤ i && sectionAt s i)

/-- The splitting step of `read_changelog(path)` on the text already read
(the `FileNotFoundError` fallback to `INITIAL_CHANGELOG` happens before
this step).  Mirrors the index computation of the source, including the
`end_index = None` case, where `changelog[end_index:]` is the **whole**
text (Python `s[None:]`). -/
def splitChangelog (s : Str) : Str × Str × Str :=
  match findUnreleased s with
  | some startIndex =>
      let middleIndex := startIndex + headingChars.length
      match findSection s middleIndex with
      | some endIndex =>
          (rstripStr (s.take startIndex),
           stripStr (sliceStr s middleIndex endIndex),
           lstripStr (s.drop endIndex))
      | none =>
          (rstripStr (s.take startIndex),
           stripStr (s.drop middleIndex),
           lstripStr s)
  | none =>
      let idx := (findSection s 0).getD s.length
      (rstripStr (s.take idx),
       stripStr (sliceStr s idx idx),
       lstripStr (s.drop idx))

/-- A string consisting of whitespace only (what trimming may discard). -/
def WsOnly (w : Str) : Prop := ∀ c ∈ w, isPySpace c = true

instance (w : Str) : Decidable (WsOnly w) := by
  unfold WsOnly; infer_instance

/-- Claim C3 as stated: the three spans of the split lose no non-whitespace
content of the original — in particular the total number of non-whitespace
characters is preserved (a consequence of "prefix + body + suffix
reconstructs the original modulo whitespace trimming at the seams"). -/
def SplitLossless (s : Str) : Prop :=
  s.countP (fun c => !isPySpace c) =
    ((splitChangelog s).1 ++ (splitChangelog s).2.1 ++ (splitChangelog s).2.2).countP
      (fun c => !isPySpace c)

instance (s : Str) : Decidable (SplitLossless s) := by
  unfold SplitLossless; infer_instance

/-- What the split actually guarantees, case by case: the original text is
`prefix` + seam whitespace (+ the dropped `## Unreleased` heading + seam
whitespace) + `body` + seam whitespace + `suffix`; except that when the
heading exists but no later section follows it, `suffix` is the entire
original text with leading whitespace stripped (so the pre-heading content
is duplicated into it) while `prefix`/heading/`body` still decompose the
text. -/
def ReconstructOK (s : Str) : Prop :=
  let p := (splitChangelog s).1
  let b := (splitChangelog s).2.1
  let suf := (splitChangelog s).2.2
  match findUnreleased s with
  | none =>
      ∃ w1 w2, WsOnly w1 ∧ WsOnly w2 ∧ s = p ++ w1 ++ b ++ w2 ++ suf
  | some startIndex =>
      match findSection s (startIndex + headingChars.length) with
      | some _ =>
          ∃ w1 w2 w3, WsOnly w1 ∧ WsOnly w2 ∧ WsOnly w3 ∧
            s = p ++ w1 ++ headingChars ++ w2 ++ b ++ w3 ++ suf
      | none =>
          (∃ w1 w2 w3, WsOnly w1 ∧ WsOnly w2 ∧ WsOnly w3 ∧
            s = p ++ w1 ++ headingChars ++ w2 ++ b ++ w3) ∧
          (∃ w0, WsOnly w0 ∧ s = w0 ++ suf)

/-! ### `update_changelog` (main.py) -/

/-- The ASCII apostrophe (avoiding quote-escape noise in literals). -/
def squote : Char := Char.ofNat 39

/-- `Repo.commits_since(obj)`: when `git rev-parse --quiet --verify obj`
fails (ref does not resolve), returns `[]`; otherwise the subject lines of
`git log --pretty=format:%s --reverse obj..` — chronological order, one
subject per line of the command's output. -/
def commitsSince (resolved : Bool) (logOut : Str) : List Str :=
  if resolved then splitlinesStr logOut else []

/-- The seed text `update_changelog` builds and hands to the editor: the
two instructional comment lines, then — when there are commits since the
old tag — a commented commit list, then — when the existing unreleased
body is non-empty — a blank line and that body. -/
def changelogSeed (oldV newV : Version) (commits : List Str) (body : Str) :
    Str :=
  str "# Please enter the changelog entry for version " ++ renderVersion newV
    ++ str ".\n"
    ++ str "# Lines starting with " ++ [squote, '#', squote]
    ++ str " will be ignored.\n"
    ++ (if commits ≠ [] then
          str "#\n# Commits since version " ++ renderVersion oldV
            ++ str ":\n#\n"
            ++ commits.flatMap (fun c => str "# - " ++ c ++ ['\n'])
        else [])
    ++ (if body ≠ [] then '\n' :: body else [])

/-- External state consumed by one run of `update_changelog`: the changelog
text that was read (after the `FileNotFoundError` fallback), whether the
old tag resolves and the `git log` output, the external editor (an
arbitrary text transformer), the confirmation answer, and today's ISO
date. -/
structure ChangelogEnv where
  text : Str
  tagResolved : Bool
  logOut : Str
  editor : Str → Str
  confirmEntry : Bool
  today : Str

/-- How `update_changelog` returns: `sys.exit(1)` on an empty entry, a
plain `return` (no write) when the confirmation is declined, or the new
changelog text written to the file. -/
inductive ChlogResult where
  | emptyEntry
  | declined
  | written (newText : Str)
deriving DecidableEq, Repr

/-- `update_changelog(repo, path, old_version, new_version)` from
`main.py`: split the changelog, seed the editor, drop leading comment
lines from the edit, strip; empty entry is fatal; a declined confirmation
returns **without aborting the caller**; otherwise splice the new dated
section between prefix and suffix and write it. -/
def updateChangelog (oldV newV : Version) (e : ChangelogEnv) : ChlogResult :=
  let pre := (splitChangelog e.text).1
  let body := (splitChangelog e.text).2.1
  let suf := (splitChangelog e.text).2.2
  let commits := commitsSince e.tagResolved e.logOut
  let content := changelogSeed oldV newV commits body
  let lines := (splitlinesStr (e.editor content)).dropWhile
    (fun l => l.head? = some '#')
  let entry := stripStr (List.intercalate ['\n'] lines)
  if entry = [] then .emptyEntry
  else if ¬ e.confirmEntry then .declined
  else .written (pre ++ str "\n\n## " ++ renderVersion newV ++ str " – "
    ++ e.today ++ str "\n\n" ++ entry ++ str "\n\n" ++ suf)

/-- `"# - "`-commented line test, and the subject it carries. -/
def subjectOf (l : Str) : Option Str :=
  if (str "# - ").isPrefixOf l then some (l.drop 4) else none

/-! ### `main` (main.py) — the release workflow -/

/-- The CLI `component` argument. -/
inductive Comp where
  | major
  | minor
  | patch
deriving DecidableEq, Repr

/-- `getattr(old_version, f"next_{component}")()`. -/
def bumpComp : Comp → Version → Version
  | .major, v => v.nextMajor
  | .minor, v => v.nextMinor
  | .patch, v => v.nextPatch

/-- Observable side effects of a run, in order. -/
inductive Event where
  | wroteChangelog (c : Str)
  | added
  | wroteFile (i : Nat) (c : Str)
  | commitAttempt (ok : Bool)
  | tagAttempt (ok : Bool)
  | pushAttempt (ok : Bool)
deriving DecidableEq, Repr

/-- How the process ends. -/
inductive Outcome where
  | fatal (msg : String)
  | declinedBump
  | versionError
  | completed
  | uncaughtError
deriving DecidableEq, Repr

/-- External git state consumed by the commit step: whether the first
`git commit` succeeds; on failure, the files changed in the worktree and
the files staged (as observed by `changed_files`), and whether the retried
commit succeeds. -/
structure CommitEnv where
  firstOk : Bool
  worktree : List String
  staged : List String
  secondOk : Bool

/-- Result of the commit step. -/
inductive CommitResult where
  | committed (attempts : Nat) (restaged : List String)
  | fatalNoFiles
  | fatalUnexpected
  | uncaught (attempts : Nat)
deriving DecidableEq, Repr

/-- The `try: repo.commit … except CalledProcessError` block of `main`:
on failure, if no worktree files changed → fatal "no files changed"; if
the changed files are not a subset of the staged set → fatal "unexpected
files changed"; otherwise re-`add` each changed file and retry the commit
exactly once — a failure of the retry propagates (uncaught). -/
def commitStepRun (e : CommitEnv) : CommitResult × List Event :=
  if e.firstOk then (.committed 1 [], [.commitAttempt true])
  else if e.worktree.isEmpty then (.fatalNoFiles, [.commitAttempt false])
  else if e.worktree.all (fun f => e.staged.contains f) then
    if e.secondOk then
      (.committed 2 e.worktree,
        .commitAttempt false :: e.worktree.map (fun _ => .added)
          ++ [.commitAttempt true])
    else
      (.uncaught 2,
        .commitAttempt false :: e.worktree.map (fun _ => .added)
          ++ [.commitAttempt false])
  else (.fatalUnexpected, [.commitAttempt false])

/-- Environment of one `main` run. -/
structure MainEnv where
  branchOk : Bool
  dirtyWorktree : Bool
  dirtyStaged : Bool
  contents : List Str
  patterns : List Pattern
  comp : Comp
  confirmBump : Bool
  changelogEnv : Option ChangelogEnv
  commitEnv : CommitEnv
  tagOk : Bool
  pushOk : Bool

/-- The `for filename, old_content in zip(...)` loop: write each file's
`write_version` result and `git add` it; a `write_version` exception
aborts (second component `false`), keeping the events already emitted. -/
def writeFilesStep (patterns : List Pattern) (v : Version) :
    List Str → Nat → List Event × Bool
  | [], _ => ([], true)
  | c :: cs, i =>
      match writeVersion c patterns v with
      | some nc =>
          let rest := writeFilesStep patterns v cs (i + 1)
          (.wroteFile i nc :: .added :: rest.1, rest.2)
      | none => ([], false)

/-- Everything `main` does after the changelog step: version-file rewrite
and staging, the commit step, tagging and the atomic push. -/
def releaseTail (e : MainEnv) (newV : Version) : Outcome × List Event :=
  let w := writeFilesStep e.patterns newV e.contents 0
  if w.2 then
    let c := commitStepRun e.commitEnv
    match c.1 with
    | .fatalNoFiles => (.fatal "no files changed", w.1 ++ c.2)
    | .fatalUnexpected => (.fatal "unexpected files changed", w.1 ++ c.2)
    | .uncaught _ => (.uncaughtError, w.1 ++ c.2)
    | .committed _ _ =>
        if e.tagOk then
          if e.pushOk then
            (.completed, w.1 ++ c.2 ++ [.tagAttempt true, .pushAttempt true])
          else
            (.uncaughtError, w.1 ++ c.2 ++ [.tagAttempt true, .pushAttempt false])
        else (.uncaughtError, w.1 ++ c.2 ++ [.tagAttempt false])
  else (.uncaughtError, w.1)

/-- `main()` from `main.py`: branch check, clean-tree check, version
extraction from the first configured file, bump, interactive confirmation,
optional changelog step (note: a declined changelog confirmation merely
returns from `update_changelog`; `main` then stages the changelog path and
carries on), file rewrite, commit with one guarded retry, tag, atomic
push. -/
def runMain (e : MainEnv) : Outcome × List Event :=
  if e.branchOk = false then (.fatal "branch", [])
  else if e.dirtyWorktree || e.dirtyStaged then (.fatal "dirty", [])
  else
    match readVersion (e.contents.headD []) e.patterns with
    | none => (.versionError, [])
    | some oldV =>
        let newV := bumpComp e.comp oldV
        if e.confirmBump = false then (.declinedBump, [])
        else
          match e.changelogEnv with
          | none => releaseTail e newV
          | some ce =>
              match updateChangelog oldV newV ce with
              | .emptyEntry => (.fatal "empty changelog entry", [])
              | .declined =>
                  let r := releaseTail e newV
                  (r.1, .added :: r.2)
              | .written c =>
                  let r := releaseTail e newV
                  (r.1, .wroteChangelog c :: .added :: r.2)

/-! ### Concrete pattern instances and run environments -/

/-- Match enumeration of the regex `(?P<major>1)` — every occurrence of the
literal `'1'` is a (one-character, hence non-overlapping) match whose only
group is the whole match. -/
def findOnes (s : Str) : List MatchData :=
  (List.range s.length).filterMap (fun i =>
    if s.get? i = some '1' then some ⟨i, i + 1, [(i, i + 1)]⟩ else none)

/-- The compiled pattern `(?P<major>1)`. -/
def pOne : Pattern := ⟨⟨1, [("major", 1)]⟩, findOnes⟩

/-- Match enumeration of the regex `(ab)(?P<major>\d)` restricted to the
subject `"ab1"`, where it has the single match `"ab1"` with the unnamed
group 1 = `"ab"` and the named group 2 = `"1"`. -/
def pMixFind (s : Str) : List MatchData :=
  if s = str "ab1" then [⟨0, 3, [(0, 2), (2, 3)]⟩] else []

/-- The compiled pattern `(ab)(?P<major>\d)` (one unnamed group, one named
group). -/
def pMix : Pattern := ⟨⟨2, [("major", 2)]⟩, pMixFind⟩

/-- Changelog environment for a run in which the user answers `n` to
`"Use this changelog entry?"`: no changelog file existed before the
`INITIAL_CHANGELOG` fallback is irrelevant here (empty text), the old tag
does not resolve, and the editor leaves a non-empty entry. -/
def ceDecline : ChangelogEnv :=
  ⟨[], false, [], fun _ => str "- Fixed things", false, str "2026-10-12"⟩

/-- A fully healthy run environment — version file `"1.2.3"`, canonical
pattern, patch bump, changelog configured as `ceDecline` — in which every
git operation succeeds. -/
def eDecline : MainEnv :=
  ⟨true, false, false, [str "1.2.3"], [canonPattern], .patch, true,
   some ceDecline, ⟨true, [], [], true⟩, true, true⟩

/-- An environment whose pattern list resolves no version component (empty
pattern list), with everything else healthy. -/
def eNoVersion : MainEnv :=
  ⟨true, false, false, [str "x"], [], .patch, true, none,
   ⟨true, [], [], true⟩, true, true⟩

/-- Commit-step state in which the first commit fails, exactly the staged
file was amended by the hook, and the retry succeeds. -/
def eCommitRetry : CommitEnv := ⟨false, ["f"], ["f"], true⟩

/-- Number of `git commit` invocations recorded in a trace. -/
def commitTries : List Event → Nat
  | [] => 0
  | .commitAttempt _ :: evs => commitTries evs + 1
  | _ :: evs => commitTries evs

/-- The two fixed instructional lines of the changelog seed. -/
def seedHeaderLines (newV : Version) : List Str :=
  [str "# Please enter the changelog entry for version " ++ renderVersion newV
     ++ ['.'],
   str "# Lines starting with " ++ [squote, '#', squote]
     ++ str " will be ignored."]

/-- The three commented lines introducing the commit list in the seed. -/
def commitsHeaderLines (oldV : Version) : List Str :=
  [['#'],
   str "# Commits since version " ++ renderVersion oldV ++ [':'],
   ['#']]

/-! ## General lemmas -/

theorem sliceStr_append (s : Str) {i j k : Nat} (h1 : i ≤ j) (h2 : j ≤ k) :
    sliceStr s i j ++ sliceStr s j k = sliceStr s i k := by
  unfold sliceStr
  have hd : s.drop j = (s.drop i).drop (j - i) := by
    rw [List.drop_drop]; congr 1; omega
  rw [hd, ← List.take_add]
  congr 1; omega

theorem sliceStr_to_end (s : Str) (pos : Nat) :
    sliceStr s pos s.length = s.drop pos := by
  unfold sliceStr
  exact List.take_of_length_le (by simp)

theorem sliceStr_drop (s : Str) {pos k : Nat} (h : pos ≤ k) :
    sliceStr s pos k ++ s.drop k = s.drop pos := by
  unfold sliceStr
  have hd : s.drop k = ((s.drop pos).drop (k - pos)) := by
    rw [List.drop_drop]; congr 1; omega
  rw [hd, List.take_append_drop]

theorem drop_decomp (s : Str) {pos k : Nat} (h : pos ≤ k) :
    s.drop pos = sliceStr s pos k ++ s.drop k := (sliceStr_drop s h).symm

theorem takeWhile_all_eq {p : Char → Bool} :
    ∀ {l : Str}, l.all p = true → l.takeWhile p = l := by
  intro l h
  induction l with
  | nil => rfl
  | cons c cs ih =>
    simp only [List.all_cons, Bool.and_eq_true] at h
    simp [List.takeWhile, h.1, ih h.2]

theorem takeWhile_append_stop {p : Char → Bool} {l : Str} {c : Char} {r : Str}
    (h : l.all p = true) (hc : p c = false) :
    (l ++ c :: r).takeWhile p = l ∧ (l ++ c :: r).dropWhile p = c :: r := by
  induction l with
  | nil => simp [List.takeWhile, List.dropWhile, hc]
  | cons a as ih =>
    simp only [List.all_cons, Bool.and_eq_true] at h
    have hrec := ih h.2
    simp [List.takeWhile_cons, List.dropWhile_cons, h.1, hrec.1, hrec.2]

/-! ## Whitespace-trimming lemmas -/

theorem wsOnly_append {a b : Str} (ha : WsOnly a) (hb : WsOnly b) :
    WsOnly (a ++ b) := by
  intro c hc
  rcases List.mem_append.mp hc with h | h
  · exact ha c h
  · exact hb c h

theorem rstrip_decomp (l : Str) :
    ∃ w, l = rstripStr l ++ w ∧ WsOnly w := by
  refine ⟨(l.reverse.takeWhile isPySpace).reverse, ?_, ?_⟩
  · unfold rstripStr
    rw [← List.reverse_append, List.takeWhile_append_dropWhile, List.reverse_reverse]
  · intro c hc
    rw [List.mem_reverse] at hc
    exact List.mem_takeWhile_imp hc

theorem lstrip_decomp (l : Str) :
    ∃ w, l = w ++ lstripStr l ∧ WsOnly w := by
  refine ⟨l.takeWhile isPySpace, ?_, ?_⟩
  · unfold lstripStr
    rw [List.takeWhile_append_dropWhile]
  · intro c hc
    exact List.mem_takeWhile_imp hc

theorem strip_decomp (l : Str) :
    ∃ w1 w2, l = w1 ++ stripStr l ++ w2 ∧ WsOnly w1 ∧ WsOnly w2 := by
  obtain ⟨w2, h2, hw2⟩ := rstrip_decomp l
  obtain ⟨w1, h1, hw1⟩ := lstrip_decomp (rstripStr l)
  refine ⟨w1, w2, ?_, hw1, hw2⟩
  calc l = rstripStr l ++ w2 := h2
    _ = (w1 ++ lstripStr (rstripStr l)) ++ w2 := by rw [← h1]
    _ = w1 ++ stripStr l ++ w2 := by simp [stripStr, List.append_assoc]

/-! ## Changelog-split lemmas -/

theorem headingChars_length : headingChars.length = 13 := rfl

theorem findUnreleased_at {s : Str} {i : Nat} (h : findUnreleased s = some i) :
    unreleasedAt s i = true := List.find?_some h

theorem findSection_at {s : Str} {pos e : Nat} (h : findSection s pos = some e) :
    pos ≤ e ∧ sectionAt s e = true := by
  have := List.find?_some h
  simp only [Bool.and_eq_true, decide_eq_true_eq] at this
  exact this

theorem unreleased_decomp {s : Str} {i : Nat} (h : unreleasedAt s i = true) :
    s = s.take i ++ headingChars ++ s.drop (i + 13) := by
  unfold unreleasedAt at h
  simp only [Bool.and_eq_true] at h
  have hp := h.1.2
  rw [List.isPrefixOf_iff_prefix] at hp
  obtain ⟨t, ht⟩ := hp
  have hdrop : s.drop i = headingChars ++ t := ht.symm
  have ht' : t = s.drop (i + 13) := by
    have : (s.drop i).drop 13 = s.drop (i + 13) := List.drop_drop ..
    rw [← this, hdrop]
    rw [show (13 : Nat) = headingChars.length from rfl, List.drop_left]
  rw [List.append_assoc, ← ht', ← hdrop, List.take_append_drop]

/-! ## Claim C3 — changelog split reconstruction -/

/-- Claim C3 as stated is false: the split drops the `## Unreleased`
heading line itself, so non-whitespace content of the original is lost.
On `"## Unreleased\nfoo\n## A x"` the split yields
`("", "foo", "## A x")` and the 19 non-whitespace characters of the
original shrink to 7. -/
theorem C3_counterexample : ¬ SplitLossless (str "## Unreleased\nfoo\n## A x") := by
  decide

/-- C3, amended: the three spans reconstruct the original modulo
whitespace trimming at the seams **and modulo the dropped
`## Unreleased` heading line**; moreover, when the heading exists but no
later section heading follows it, `suffix` is the entire original text
with leading whitespace stripped (duplicating the pre-heading content)
while prefix/heading/body still decompose the whole text. -/
theorem C3_amended (s : Str) : ReconstructOK s := by
  rcases hfu : findUnreleased s with _ | st
  · rcases hfs : findSection s 0 with _ | idx
    · have hsplit : splitChangelog s =
          (rstripStr s, [], []) := by
        simp [splitChangelog, hfu, hfs, sliceStr, stripStr, lstripStr, rstripStr]
      simp only [ReconstructOK, hfu, hsplit]
      obtain ⟨w1, hw1, hws1⟩ := rstrip_decomp s
      refine ⟨w1, [], hws1, ?_, ?_⟩
      · intro c hc; cases hc
      · simpa [List.append_assoc] using hw1
    · have hsplit : splitChangelog s =
          (rstripStr (s.take idx), [], lstripStr (s.drop idx)) := by
        simp [splitChangelog, hfu, hfs, sliceStr, stripStr, lstripStr, rstripStr]
      simp only [ReconstructOK, hfu, hsplit]
      obtain ⟨w1, hw1, hws1⟩ := rstrip_decomp (s.take idx)
      obtain ⟨w2, hw2, hws2⟩ := lstrip_decomp (s.drop idx)
      refine ⟨w1, w2, hws1, hws2, ?_⟩
      calc s = s.take idx ++ s.drop idx := (List.take_append_drop ..).symm
        _ = (rstripStr (s.take idx) ++ w1) ++ (w2 ++ lstripStr (s.drop idx)) := by
            rw [← hw1, ← hw2]
        _ = _ := by simp [List.append_assoc]
  · have hdec := unreleased_decomp (findUnreleased_at hfu)
    rcases hfs : findSection s (st + headingChars.length) with _ | e
    all_goals rw [headingChars_length] at hfs
    · have hsplit : splitChangelog s =
          (rstripStr (s.take st), stripStr (s.drop (st + 13)),
           lstripStr s) := by
        simp [splitChangelog, hfu, headingChars_length, hfs]
      simp only [ReconstructOK, hfu, headingChars_length, hfs, hsplit]
      constructor
      · obtain ⟨w1, hw1, hws1⟩ := rstrip_decomp (s.take st)
        obtain ⟨w2, w3, hw23, hws2, hws3⟩ :=
          strip_decomp (s.drop (st + 13))
        refine ⟨w1, w2, w3, hws1, hws2, hws3, ?_⟩
        calc s = s.take st ++ headingChars ++ s.drop (st + 13) := hdec
          _ = (rstripStr (s.take st) ++ w1) ++ headingChars
              ++ (w2 ++ stripStr (s.drop (st + 13)) ++ w3) := by
            rw [← hw1, ← hw23]
          _ = _ := by simp [List.append_assoc]
      · obtain ⟨w0, hw0, hws0⟩ := lstrip_decomp s
        exact ⟨w0, hws0, hw0⟩
    · have hse := findSection_at hfs
      have hsplit : splitChangelog s =
          (rstripStr (s.take st),
           stripStr (sliceStr s (st + 13) e),
           lstripStr (s.drop e)) := by
        simp [splitChangelog, hfu, headingChars_length, hfs]
      simp only [ReconstructOK, hfu, headingChars_length, hfs, hsplit]
      obtain ⟨w1, hw1, hws1⟩ := rstrip_decomp (s.take st)
      obtain ⟨w2, w3, hw23, hws2, hws3⟩ :=
        strip_decomp (sliceStr s (st + 13) e)
      obtain ⟨w4, hw4, hws4⟩ := lstrip_decomp (s.drop e)
      refine ⟨w1, w2, w3 ++ w4, hws1, hws2, wsOnly_append hws3 hws4, ?_⟩
      calc s = s.take st ++ headingChars ++ s.drop (st + 13) := hdec
        _ = s.take st ++ headingChars
            ++ (sliceStr s (st + 13) e ++ s.drop e) := by
          rw [← drop_decomp s (by have := hse.1; omega)]
        _ = (rstripStr (s.take st) ++ w1) ++ headingChars
            ++ ((w2 ++ stripStr (sliceStr s (st + 13) e) ++ w3)
                ++ (w4 ++ lstripStr (s.drop e))) := by
          rw [← hw1, ← hw23, ← hw4]
        _ = _ := by simp [List.append_assoc]

/-! ## Claim C10 — split with no heading at all -/

/-- C10: when the text has neither a `## Unreleased` line nor any
`^##[^#]` line, the split returns the whole text right-stripped, an empty
body, and an empty suffix. -/
theorem C10_no_heading (s : Str)
    (h1 : findUnreleased s = none) (h2 : findSection s 0 = none) :
    splitChangelog s = (rstripStr s, [], []) := by
  simp [splitChangelog, h1, h2, sliceStr, stripStr, lstripStr, rstripStr]

/-- Witness for C10 at the concrete text `"# Changelog\nhello"`. -/
theorem C10_witness :
    findUnreleased (str "# Changelog\nhello") = none ∧
    findSection (str "# Changelog\nhello") 0 = none ∧
    splitChangelog (str "# Changelog\nhello") =
      (rstripStr (str "# Changelog\nhello"), [], []) :=
  ⟨by decide, by decide,
   C10_no_heading (str "# Changelog\nhello") (by decide) (by decide)⟩

/-! ## Claim C6 — next-version algebra -/

/-- C6: `next_major` is `(major+1, 0, 0)`, `next_minor` is
`(major, minor+1, 0)`, `next_patch` changes only the patch (by one), and
all three are strictly greater in lexicographic order. -/
theorem C6_next_version (v : Version) :
    v.nextMajor = ⟨v.major + 1, 0, 0⟩ ∧
    v.nextMinor = ⟨v.major, v.minor + 1, 0⟩ ∧
    (v.nextPatch.major = v.major ∧ v.nextPatch.minor = v.minor ∧
      v.nextPatch.patch = v.patch + 1) ∧
    Version.lt v v.nextMajor ∧ Version.lt v v.nextMinor ∧
    Version.lt v v.nextPatch := by
  refine ⟨rfl, rfl, ⟨rfl, rfl, rfl⟩, ?_, ?_, ?_⟩
  · exact Or.inl (Nat.lt_succ_self _)
  · exact Or.inr ⟨rfl, Or.inl (Nat.lt_succ_self _)⟩
  · exact Or.inr ⟨rfl, Or.inr ⟨rfl, Nat.lt_succ_self _⟩⟩

/-! ## Substitution lemmas -/

theorem chainSpans_le : ∀ {lo : Nat} {sps : List (Nat × Nat)} {hi : Nat},
    ChainSpans lo sps hi → lo ≤ hi := by
  intro lo sps
  induction sps generalizing lo with
  | nil => intro hi h; exact h
  | cons sp sps ih =>
    intro hi h
    obtain ⟨h1, h2, h3⟩ := h
    exact le_trans h1 (le_trans h2 (ih h3))

theorem chainSubs_zip : ∀ (sps : List (Nat × Nat)) (vs : List Str) {lo hi : Nat},
    ChainSpans lo sps hi → ChainSubs lo (sps.zip vs) hi := by
  intro sps
  induction sps with
  | nil =>
    intro vs lo hi h
    simpa [List.zip, ChainSubs] using h
  | cons sp sps ih =>
    intro vs lo hi h
    obtain ⟨sa, sb⟩ := sp
    obtain ⟨h1, h2, h3⟩ := h
    cases vs with
    | nil =>
        simp only [List.zip_nil_right, ChainSubs]
        exact le_trans h1 (le_trans h2 (chainSpans_le h3))
    | cons v vs => exact ⟨h1, h2, ih vs h3⟩

theorem chainSubs_mono_lo {lo' lo : Nat} {subs : List ((Nat × Nat) × Str)}
    {hi : Nat} (h : lo' ≤ lo) (hc : ChainSubs lo subs hi) :
    ChainSubs lo' subs hi := by
  cases subs with
  | nil => exact le_trans h hc
  | cons sub subs =>
    obtain ⟨⟨a, b⟩, v⟩ := sub
    exact ⟨le_trans h hc.1, hc.2.1, hc.2.2⟩

theorem spliceTo_append (s : Str) :
    ∀ (subs1 : List ((Nat × Nat) × Str)) {pos mid : Nat}
      (subs2 : List ((Nat × Nat) × Str)) {stop : Nat},
      ChainSubs pos subs1 mid → mid ≤ startBound subs2 stop →
      spliceTo s pos (subs1 ++ subs2) stop =
        spliceTo s pos subs1 mid ++ spliceTo s mid subs2 stop := by
  intro subs1
  induction subs1 with
  | nil =>
    intro pos mid subs2 stop hc hm
    cases subs2 with
    | nil =>
        simp only [List.nil_append, spliceTo]
        exact (sliceStr_append s hc hm).symm
    | cons sub rest =>
        obtain ⟨⟨a, b⟩, v⟩ := sub
        simp only [startBound] at hm
        simp only [List.nil_append, spliceTo]
        rw [← sliceStr_append s hc hm]
        simp [List.append_assoc]
  | cons sub rest1 ih =>
    intro pos mid subs2 stop hc hm
    obtain ⟨⟨a, b⟩, v⟩ := sub
    obtain ⟨h1, h2, h3⟩ := hc
    simp only [List.cons_append, spliceTo, List.append_assoc]
    rw [show rest1.append subs2 = rest1 ++ subs2 from rfl, ih subs2 h3 hm]

theorem spliceTo_shift (s : Str) {pos mid : Nat}
    (subs : List ((Nat × Nat) × Str)) {stop : Nat}
    (h1 : pos ≤ mid) (h2 : mid ≤ startBound subs stop) :
    sliceStr s pos mid ++ spliceTo s mid subs stop = spliceTo s pos subs stop := by
  cases subs with
  | nil => exact sliceStr_append s h1 h2
  | cons sub rest =>
      obtain ⟨⟨a, b⟩, v⟩ := sub
      simp only [startBound] at h2
      simp only [spliceTo]
      rw [← sliceStr_append s h1 h2]
      simp [List.append_assoc]

theorem spliceLoop_eq (s : Str) :
    ∀ (vs : List Str) (sps : List (Nat × Nat)) (b stop : Nat),
      vs.length = sps.length →
      spliceLoop s vs sps b stop = spliceTo s b (sps.zip vs) stop := by
  intro vs
  induction vs with
  | nil =>
    intro sps b stop h
    cases sps with
    | nil => rfl
    | cons sp sps => simp at h
  | cons v vs ih =>
    intro sps b stop h
    cases sps with
    | nil => simp at h
    | cons sp sps =>
        obtain ⟨a, c⟩ := sp
        simp only [List.length_cons, Nat.succ.injEq] at h
        simp only [spliceLoop, List.zip_cons_cons, spliceTo]
        rw [ih sps c stop h]
        rfl

theorem replfun_eq (s : Str) (m : MatchData) (values : List Str)
    (hnz : values ≠ []) (hlen : m.groupSpans.length = values.length) :
    replfun s m values =
      some (spliceTo s m.start0 (m.groupSpans.zip values) m.end0) := by
  cases values with
  | nil => exact absurd rfl hnz
  | cons v vs =>
    cases hsp : m.groupSpans with
    | nil => rw [hsp] at hlen; simp at hlen
    | cons sp sps =>
        obtain ⟨a, b⟩ := sp
        rw [hsp] at hlen
        simp only [List.length_cons, Nat.succ.injEq] at hlen
        simp only [replfun, hsp, List.zip_cons_cons, spliceTo]
        rw [spliceLoop_eq s vs sps b m.end0 hlen.symm]
        rfl

theorem allGroupSubs_cons (m : MatchData) (ms : List MatchData)
    (values : List Str) :
    allGroupSubs (m :: ms) values =
      m.groupSpans.zip values ++ allGroupSubs ms values := by
  simp [allGroupSubs]

theorem reSub_splice (s : Str) (values : List Str) (g : Nat)
    (hg : values.length = g) :
    ∀ (ms : List MatchData) (pos : Nat),
      (∀ m ∈ ms, MatchWF m g) → OrderedMatches pos ms s.length →
      (ms = [] ∨ values ≠ []) →
      reSubFrom s values pos ms =
        some (spliceTo s pos (allGroupSubs ms values) s.length) := by
  intro ms
  induction ms with
  | nil =>
    intro pos _ _ _
    simp [reSubFrom, allGroupSubs, spliceTo, sliceStr_to_end]
  | cons m ms ih =>
    intro pos hwf hord hnz
    have hvne : values ≠ [] := by
      rcases hnz with h | h
      · cases h
      · exact h
    have hm := hwf m (List.mem_cons_self ..)
    have hlen : m.groupSpans.length = values.length := by
      rw [hm.1, hg]
    have hrest := ih m.end0 (fun x hx => hwf x (List.mem_cons_of_mem _ hx))
      hord.2 (Or.inr hvne)
    have hchain : ChainSubs m.start0 (m.groupSpans.zip values) m.end0 :=
      chainSubs_zip m.groupSpans values hm.2
    have hchain' : ChainSubs pos (m.groupSpans.zip values) m.end0 :=
      chainSubs_mono_lo hord.1 hchain
    have hub : m.end0 ≤ startBound (allGroupSubs ms values) s.length := by
      cases ms with
      | nil => simpa [allGroupSubs, startBound] using hord.2
      | cons mtl mstl =>
        have hm' := hwf mtl (List.mem_cons_of_mem _ (List.mem_cons_self ..))
        cases hsp : mtl.groupSpans with
        | nil =>
          exfalso
          apply hvne
          have hl : mtl.groupSpans.length = values.length := by rw [hm'.1, hg]
          rw [hsp] at hl
          exact List.length_eq_zero.mp hl.symm
        | cons sp sps =>
          obtain ⟨ta, tb⟩ := sp
          cases values with
          | nil => exact absurd rfl hvne
          | cons v vs =>
            have h1 : m.end0 ≤ mtl.start0 := hord.2.1
            have h2 : mtl.start0 ≤ ta := by
              have hcs := hm'.2
              rw [hsp] at hcs
              exact hcs.1
            simp only [allGroupSubs_cons, hsp, List.zip_cons_cons,
              List.cons_append, startBound]
            omega
    have hsb : m.start0 ≤ startBound (m.groupSpans.zip values) m.end0 := by
      cases hz : m.groupSpans.zip values with
      | nil => simpa [startBound] using chainSpans_le hm.2
      | cons u rest =>
        obtain ⟨⟨ua, ub⟩, uv⟩ := u
        have := hchain
        rw [hz] at this
        simpa [startBound] using this.1
    simp only [reSubFrom, replfun_eq s m values hvne hlen, hrest,
      Option.bind_eq_bind, Option.some_bind, Option.some.injEq, pure]
    rw [allGroupSubs_cons,
      spliceTo_append s (m.groupSpans.zip values) (allGroupSubs ms values)
        hchain' hub,
      ← spliceTo_shift s (m.groupSpans.zip values) hord.1 hsb]

theorem chainSubs_le : ∀ {lo : Nat} {subs : List ((Nat × Nat) × Str)} {hi : Nat},
    ChainSubs lo subs hi → lo ≤ hi := by
  intro lo subs
  induction subs generalizing lo with
  | nil => intro hi h; exact h
  | cons sub subs ih =>
    intro hi h
    obtain ⟨⟨a, b⟩, v⟩ := sub
    obtain ⟨h1, h2, h3⟩ := h
    exact le_trans h1 (le_trans h2 (ih h3))

theorem buildValues_length :
    ∀ (gi : List (String × Nat)) (repl : List (String × Str))
      (init out : List Str),
      gi.foldlM
        (fun vs kv => (repl.lookup kv.1).map (fun v => vs.set (kv.2 - 1) v))
        init = some out →
      out.length = init.length := by
  intro gi
  induction gi with
  | nil =>
    intro repl init out h
    simp only [List.foldlM_nil, pure, Option.some.injEq] at h
    rw [← h]
  | cons kv gi ih =>
    intro repl init out h
    rw [List.foldlM_cons] at h
    cases hl : repl.lookup kv.1 with
    | none => rw [hl] at h; simp at h
    | some v =>
        rw [hl] at h
        simp only [Option.map_some', Option.some_bind] at h
        rw [ih repl _ out h, List.length_set]

/-! ## Claim C2 — what substitution replaces -/

/-- Claim C2 as stated is false: `sub_named_groups` replaces **unnamed**
capture-group spans by the empty string (deleting their text) instead of
leaving them unchanged, because `values` is initialised to `""` for every
group.  For the pattern `(ab)(?P<major>\d)` on `"ab1"` with major = 5 the
code produces `"5"`, while the claim demands `"ab5"` — even though the
match list is well-formed and ordered. -/
theorem C2_counterexample :
    (∀ m ∈ pMix.find (str "ab1"), MatchWF m pMix.info.groups) ∧
    OrderedMatches 0 (pMix.find (str "ab1")) (str "ab1").length ∧
    subNamedGroups pMix (versionDict ⟨5, 0, 0⟩) (str "ab1") ≠
      some (claimedSub pMix (versionDict ⟨5, 0, 0⟩) (str "ab1")) := by
  decide

/-- Claim C2, amended: for every pattern whose group names the replacement
dictionary covers (and with at least one capture group when it has
matches — a zero-group pattern makes `replfun` raise `IndexError`), and
every well-formed, ordered, non-overlapping match enumeration,
`sub_named_groups` replaces exactly the capture-group spans of each
match — a named group by its component string and an **unnamed group by
the empty string** — leaving all other text, matched or unmatched,
unchanged, for any number of matches. -/
theorem C2_substitution (p : Pattern) (repl : List (String × Str)) (s : Str)
    (values : List Str)
    (hv : buildValues p.info repl = some values)
    (hnz : p.find s = [] ∨ values ≠ [])
    (hwf : ∀ m ∈ p.find s, MatchWF m p.info.groups)
    (hord : OrderedMatches 0 (p.find s) s.length) :
    subNamedGroups p repl s =
      some (spliceTo s 0 (allGroupSubs (p.find s) values) s.length) := by
  have hg : values.length = p.info.groups := by
    have := buildValues_length p.info.groupindex repl
      (List.replicate p.info.groups []) values hv
    simpa using this
  simp only [subNamedGroups, hv, Option.bind_eq_bind, Option.some_bind]
  exact reSub_splice s values p.info.groups hg (p.find s) 0 hwf hord hnz

/-- Witness for C2 at the pattern `(ab)(?P<major>\d)` on `"ab1"`. -/
theorem C2_witness :
    buildValues pMix.info (versionDict ⟨5, 0, 0⟩) = some [[], str "5"] ∧
    subNamedGroups pMix (versionDict ⟨5, 0, 0⟩) (str "ab1") =
      some (spliceTo (str "ab1") 0
        (allGroupSubs (pMix.find (str "ab1")) [[], str "5"])
        (str "ab1").length) :=
  ⟨by decide,
   C2_substitution pMix (versionDict ⟨5, 0, 0⟩) (str "ab1") [[], str "5"]
     (by decide) (by decide) (by decide) (by decide)⟩

/-! ## Claim C8 — idempotence of substitution -/

theorem spliceTo_self (t : Str) :
    ∀ (subs : List ((Nat × Nat) × Str)) (pos stop : Nat),
      ChainSubs pos subs stop →
      (∀ pr ∈ subs, sliceStr t pr.1.1 pr.1.2 = pr.2) →
      spliceTo t pos subs stop = sliceStr t pos stop := by
  intro subs
  induction subs with
  | nil => intro pos stop _ _; rfl
  | cons u rest ih =>
    intro pos stop hc hv
    obtain ⟨⟨a, b⟩, v⟩ := u
    obtain ⟨h1, h2, h3⟩ := hc
    have hval : sliceStr t a b = v := hv _ (List.mem_cons_self ..)
    simp only [spliceTo]
    rw [ih b stop h3 (fun pr hpr => hv pr (List.mem_cons_of_mem _ hpr)),
      ← hval, List.append_assoc, sliceStr_append t h2 (chainSubs_le h3),
      sliceStr_append t h1 (le_trans h2 (chainSubs_le h3))]

theorem reSub_self (t : Str) (values : List Str) (g : Nat)
    (hg : values.length = g) :
    ∀ (ms : List MatchData) (pos : Nat),
      (∀ m ∈ ms, MatchWF m g ∧
        ∀ pr ∈ m.groupSpans.zip values, sliceStr t pr.1.1 pr.1.2 = pr.2) →
      OrderedMatches pos ms t.length →
      (ms = [] ∨ values ≠ []) →
      reSubFrom t values pos ms = some (t.drop pos) := by
  intro ms
  induction ms with
  | nil => intro pos _ _ _; rfl
  | cons m ms ih =>
    intro pos hstb hord hnz
    have hvne : values ≠ [] := by
      rcases hnz with h | h
      · cases h
      · exact h
    have hm := hstb m (List.mem_cons_self ..)
    have hlen : m.groupSpans.length = values.length := by
      rw [hm.1.1, hg]
    have hse : m.start0 ≤ m.end0 := chainSpans_le hm.1.2
    have hrest := ih m.end0 (fun x hx => hstb x (List.mem_cons_of_mem _ hx))
      hord.2 (Or.inr hvne)
    have hrepl : replfun t m values = some (sliceStr t m.start0 m.end0) := by
      rw [replfun_eq t m values hvne hlen]
      congr 1
      exact spliceTo_self t (m.groupSpans.zip values) m.start0 m.end0
        (chainSubs_zip m.groupSpans values hm.1.2) hm.2
    simp only [reSubFrom, hrepl, hrest, Option.bind_eq_bind, Option.some_bind,
      pure, Option.some.injEq]
    rw [sliceStr_append t hord.1 hse, sliceStr_drop t (le_trans hord.1 hse)]

theorem subNamedGroups_stable (p : Pattern) (repl : List (String × Str))
    (t : Str) (h : PatStable p repl t) :
    subNamedGroups p repl t = some t := by
  obtain ⟨values, hv, hnz, hmatch, hord⟩ := h
  have hg : values.length = p.info.groups := by
    have := buildValues_length p.info.groupindex repl
      (List.replicate p.info.groups []) values hv
    simpa using this
  simp only [subNamedGroups, hv, Option.bind_eq_bind, Option.some_bind]
  have := reSub_self t values p.info.groups hg (p.find t) 0 hmatch hord hnz
  simpa using this

/-- Claim C8 as stated is false: substitution is not idempotent for every
pattern and version.  With the pattern `(?P<major>1)` and major = 11, the
text `"1"` becomes `"11"`, and a second application turns that into
`"1111"`: the first substitution manufactured new matches. -/
theorem C8_counterexample :
    writeVersion (str "1") [pOne] ⟨11, 0, 0⟩ = some (str "11") ∧
    writeVersion (str "11") [pOne] ⟨11, 0, 0⟩ ≠ some (str "11") := by
  decide

/-- Claim C8, amended: substitution is idempotent whenever each pattern's
matches on the once-substituted output are well-formed, ordered and have
every capture-group span already containing exactly the value that would
be spliced in (as the intended `\d+`-style version patterns do, re-matching
the number just written); then a second application returns the output
unchanged.  In general a second application may differ, since the first
substitution can create new matches. -/
theorem C8_idempotent (ps : List Pattern) (v : Version) (s t : Str)
    (h1 : writeVersion s ps v = some t)
    (h2 : ∀ p ∈ ps, PatStable p (versionDict v) t) :
    writeVersion t ps v = some t := by
  unfold writeVersion
  clear h1
  induction ps with
  | nil => rfl
  | cons p ps ih =>
    rw [List.foldlM_cons,
      subNamedGroups_stable p (versionDict v) t (h2 p (List.mem_cons_self ..))]
    simp only [Option.bind_eq_bind, Option.some_bind]
    exact ih (fun q hq => h2 q (List.mem_cons_of_mem _ hq))

/-- Witness for C8 at the pattern `(?P<major>1)` with major = 2: the output
`"2"` has no further match, so a second application is the identity. -/
theorem C8_witness :
    writeVersion (str "1") [pOne] ⟨2, 0, 0⟩ = some (str "2") ∧
    writeVersion (str "2") [pOne] ⟨2, 0, 0⟩ = some (str "2") :=
  ⟨by decide,
   C8_idempotent [pOne] ⟨2, 0, 0⟩ (str "1") (str "2") (by decide)
     (fun p hp => by
       rw [List.mem_singleton] at hp
       subst hp
       exact ⟨[str "2"], by decide, by decide, by decide, by decide⟩)⟩

/-! ## Decimal rendering and parsing lemmas -/

theorem isDigit_digitChar (d : Nat) : isDigitCh (digitChar d) = true := by
  unfold digitChar
  split <;> decide

theorem charDigit_digitChar (d : Nat) (h : d < 10) :
    charDigit (digitChar d) = d := by
  interval_cases d <;> decide

theorem natCharsAux_zero (fuel : Nat) (acc : Str) :
    natCharsAux fuel 0 acc = acc := by
  cases fuel <;> simp [natCharsAux]

theorem natCharsAux_digits : ∀ (fuel n : Nat) (acc : Str),
    (∀ c ∈ acc, isDigitCh c = true) →
    ∀ c ∈ natCharsAux fuel n acc, isDigitCh c = true := by
  intro fuel
  induction fuel with
  | zero => intro n acc hacc; exact hacc
  | succ fuel ih =>
    intro n acc hacc
    simp only [natCharsAux]
    split
    · exact hacc
    · apply ih
      intro c hc
      rcases List.mem_cons.mp hc with h | h
      · subst h; exact isDigit_digitChar _
      · exact hacc c h

theorem natChars_digits (n : Nat) : ∀ c ∈ natChars n, isDigitCh c = true := by
  unfold natChars
  split
  · intro c hc
    simp only [List.mem_singleton] at hc
    subst hc; decide
  · exact natCharsAux_digits n n [] (by intro c hc; cases hc)

theorem natChars_all (n : Nat) : (natChars n).all isDigitCh = true :=
  List.all_eq_true.mpr (fun c hc => natChars_digits n c hc)

theorem natCharsAux_length : ∀ (fuel n : Nat) (acc : Str),
    acc.length ≤ (natCharsAux fuel n acc).length := by
  intro fuel
  induction fuel with
  | zero => intro n acc; exact le_rfl
  | succ fuel ih =>
    intro n acc
    simp only [natCharsAux]
    split
    · exact le_rfl
    · exact le_trans (by simp) (ih (n / 10) (digitChar (n % 10) :: acc))

theorem natChars_ne_nil (n : Nat) : natChars n ≠ [] := by
  unfold natChars
  split
  · simp
  · intro hcon
    rename_i hn
    obtain ⟨m, rfl⟩ : ∃ m, n = m + 1 := ⟨n - 1, by omega⟩
    have h1 : (1 : Nat) ≤ (natCharsAux (m + 1) (m + 1) []).length := by
      simp only [natCharsAux, if_neg (Nat.succ_ne_zero m)]
      exact le_trans (by simp) (natCharsAux_length m ((m + 1) / 10) _)
    rw [hcon] at h1
    simp at h1

theorem parseNat_aux (n : Nat) :
    0 < n → ∀ (fuel : Nat) (acc : Str), n ≤ fuel →
      List.foldl (fun a c => a * 10 + charDigit c) 0 (natCharsAux fuel n acc) =
        List.foldl (fun a c => a * 10 + charDigit c) n acc := by
  induction n using Nat.strong_induction_on with
  | _ n ih =>
    intro hn fuel acc hfuel
    cases fuel with
    | zero => omega
    | succ fuel =>
      simp only [natCharsAux, if_neg (Nat.pos_iff_ne_zero.mp hn)]
      by_cases h10 : n < 10
      · have hdiv : n / 10 = 0 := Nat.div_eq_of_lt h10
        rw [hdiv, natCharsAux_zero]
        simp only [List.foldl_cons]
        rw [Nat.mod_eq_of_lt h10, charDigit_digitChar n h10]
        norm_num
      · have hdiv_pos : 0 < n / 10 := Nat.div_pos (by omega) (by norm_num)
        have hdiv_lt : n / 10 < n := Nat.div_lt_self hn (by norm_num)
        rw [ih (n / 10) hdiv_lt hdiv_pos fuel _ (by omega)]
        simp only [List.foldl_cons]
        rw [charDigit_digitChar (n % 10) (Nat.mod_lt n (by norm_num))]
        congr 1
        omega

theorem parseNat_natChars (n : Nat) : parseNat (natChars n) = n := by
  by_cases h : n = 0
  · subst h; decide
  · unfold natChars
    rw [if_neg h]
    simpa [parseNat] using
      parseNat_aux n (Nat.pos_of_ne_zero h) n [] le_rfl

theorem parseIntChars_natChars (n : Nat) :
    parseIntChars (natChars n) = some n := by
  rw [parseIntChars, if_pos ⟨natChars_ne_nil n, natChars_all n⟩,
    parseNat_natChars]

/-! ## Claim C7 — render/parse round trip -/

theorem dot_not_digit : isDigitCh '.' = false := by decide

theorem slice_at (x y z : Str) {i j : Nat} (hi : i = x.length)
    (hj : j = x.length + y.length) :
    sliceStr (x ++ (y ++ z)) i j = y := by
  subst hi
  subst hj
  simp only [sliceStr, List.drop_left]
  rw [show x.length + y.length - x.length = y.length from by omega]
  exact List.take_left ..

theorem slice_tail (x y : Str) {i j : Nat} (hi : i = x.length)
    (hj : j = x.length + y.length) :
    sliceStr (x ++ y) i j = y := by
  subst hi
  subst hj
  simp only [sliceStr, List.drop_left]
  rw [show x.length + y.length - x.length = y.length from by omega]
  exact List.take_length y

theorem canonFind_render (v : Version) :
    canonFind (renderVersion v) =
      [⟨0,
        (natChars v.major).length + 1 + (natChars v.minor).length + 1 +
          (natChars v.patch).length,
        [(0, (natChars v.major).length),
         ((natChars v.major).length + 1,
          (natChars v.major).length + 1 + (natChars v.minor).length),
         ((natChars v.major).length + 1 + (natChars v.minor).length + 1,
          (natChars v.major).length + 1 + (natChars v.minor).length + 1 +
            (natChars v.patch).length)]⟩] := by
  have hA := takeWhile_append_stop (l := natChars v.major) (c := '.')
    (r := natChars v.minor ++ '.' :: natChars v.patch)
    (natChars_all v.major) dot_not_digit
  have hB := takeWhile_append_stop (l := natChars v.minor) (c := '.')
    (r := natChars v.patch) (natChars_all v.minor) dot_not_digit
  have hC : (natChars v.patch).takeWhile isDigitCh = natChars v.patch :=
    takeWhile_all_eq (natChars_all v.patch)
  have hshape : renderVersion v =
      natChars v.major ++ '.' :: (natChars v.minor ++ '.' :: natChars v.patch) := by
    simp [renderVersion, List.append_assoc]
  rw [canonFind, hshape, hA.1, hA.2]
  simp only [List.head?_cons, List.tail_cons]
  rw [if_pos ⟨natChars_ne_nil v.major, trivial⟩, hB.1, hB.2]
  simp only [List.head?_cons, List.tail_cons]
  rw [if_pos ⟨natChars_ne_nil v.minor, trivial⟩, hC,
    if_pos (natChars_ne_nil v.patch)]

theorem groupdict_render (v : Version) :
    groupdict canonPattern (renderVersion v)
      ⟨0,
       (natChars v.major).length + 1 + (natChars v.minor).length + 1 +
         (natChars v.patch).length,
       [(0, (natChars v.major).length),
        ((natChars v.major).length + 1,
         (natChars v.major).length + 1 + (natChars v.minor).length),
        ((natChars v.major).length + 1 + (natChars v.minor).length + 1,
         (natChars v.major).length + 1 + (natChars v.minor).length + 1 +
           (natChars v.patch).length)]⟩ =
      [("major", natChars v.major), ("minor", natChars v.minor),
       ("patch", natChars v.patch)] := by
  have h0 : groupdict canonPattern (renderVersion v)
      ⟨0,
       (natChars v.major).length + 1 + (natChars v.minor).length + 1 +
         (natChars v.patch).length,
       [(0, (natChars v.major).length),
        ((natChars v.major).length + 1,
         (natChars v.major).length + 1 + (natChars v.minor).length),
        ((natChars v.major).length + 1 + (natChars v.minor).length + 1,
         (natChars v.major).length + 1 + (natChars v.minor).length + 1 +
           (natChars v.patch).length)]⟩ =
      [("major", sliceStr (renderVersion v) 0 (natChars v.major).length),
       ("minor", sliceStr (renderVersion v) ((natChars v.major).length + 1)
          ((natChars v.major).length + 1 + (natChars v.minor).length)),
       ("patch", sliceStr (renderVersion v)
          ((natChars v.major).length + 1 + (natChars v.minor).length + 1)
          ((natChars v.major).length + 1 + (natChars v.minor).length + 1 +
            (natChars v.patch).length))] := rfl
  have hmaj : sliceStr (renderVersion v) 0 (natChars v.major).length =
      natChars v.major := by
    have hs : renderVersion v =
        [] ++ (natChars v.major ++
          '.' :: (natChars v.minor ++ '.' :: natChars v.patch)) := by
      simp [renderVersion, List.append_assoc]
    rw [hs]
    exact slice_at [] (natChars v.major)
      ('.' :: (natChars v.minor ++ '.' :: natChars v.patch)) (by simp) (by simp)
  have hmin : sliceStr (renderVersion v) ((natChars v.major).length + 1)
      ((natChars v.major).length + 1 + (natChars v.minor).length) =
      natChars v.minor := by
    have hs : renderVersion v =
        (natChars v.major ++ ['.']) ++
          (natChars v.minor ++ '.' :: natChars v.patch) := by
      simp [renderVersion, List.append_assoc]
    rw [hs]
    exact slice_at (natChars v.major ++ ['.']) (natChars v.minor)
      ('.' :: natChars v.patch) (by simp) (by simp)
  have hpat : sliceStr (renderVersion v)
      ((natChars v.major).length + 1 + (natChars v.minor).length + 1)
      ((natChars v.major).length + 1 + (natChars v.minor).length + 1 +
        (natChars v.patch).length) = natChars v.patch := by
    have hs : renderVersion v =
        (natChars v.major ++ '.' :: (natChars v.minor ++ ['.'])) ++
          natChars v.patch := by
      simp [renderVersion, List.append_assoc]
    rw [hs]
    exact slice_tail (natChars v.major ++ '.' :: (natChars v.minor ++ ['.']))
      (natChars v.patch) (by simp; omega) (by simp; omega)
  rw [h0, hmaj, hmin, hpat]

theorem C7_round_trip (v : Version) :
    readVersion (renderVersion v) [canonPattern] = some v := by
  have e1 : ("minor" == "major") = false := by decide
  have e2 : ("patch" == "major") = false := by decide
  have e3 : ("patch" == "minor") = false := by decide
  have hcc : collectComps (renderVersion v) [canonPattern] =
      [("major", natChars v.major), ("minor", natChars v.minor),
       ("patch", natChars v.patch)] := by
    simp only [collectComps, List.foldl_cons, List.foldl_nil]
    rw [show canonPattern.find = canonFind from rfl, canonFind_render]
    simp only [List.head?_cons]
    rw [groupdict_render]
    simp only [List.foldl_cons, List.foldl_nil]
    simp [dictInsert, List.lookup, e1, e2, e3]
  have hconv : convComps (collectComps (renderVersion v) [canonPattern]) =
      some [("major", v.major), ("minor", v.minor), ("patch", v.patch)] := by
    rw [hcc]
    simp [convComps, parseIntChars_natChars]
  have f1 : ("major" == "major") = true := by decide
  have f3 : ("minor" == "minor") = true := by decide
  have f6 : ("patch" == "patch") = true := by decide
  simp only [readVersion, Option.bind_eq_bind, hconv, Option.some_bind]
  simp [mkVersion, List.lookup, f1, e1, f3, e2, e3, f6]

/-! ## Claim C4 — extraction failure before any mutation -/

theorem convComps_lookup_none {l : List (String × Str)} :
    ∀ {l' : List (String × Nat)} (k : String),
      convComps l = some l' → l.lookup k = none → l'.lookup k = none := by
  induction l with
  | nil =>
    intro l' k h _
    simp only [convComps, Option.some.injEq] at h
    subst h
    rfl
  | cons kv tl ih =>
    intro l' k h hk
    simp only [convComps, Option.bind_eq_bind] at h
    cases hp : parseIntChars kv.2 with
    | none => rw [hp] at h; simp at h
    | some n =>
      rw [hp] at h
      simp only [Option.some_bind] at h
      cases hc : convComps tl with
      | none => rw [hc] at h; simp at h
      | some tl' =>
        rw [hc] at h
        simp only [Option.some_bind, pure, Option.some.injEq] at h
        subst h
        obtain ⟨k1, v1⟩ := kv
        cases hbeq : (k == k1) with
        | true =>
          exfalso
          simp only [List.lookup, hbeq] at hk
          cases hk
        | false =>
          simp only [List.lookup, hbeq] at hk ⊢
          exact ih k hc hk

theorem readVersion_none {contents : Str} {patterns : List Pattern}
    (h : (collectComps contents patterns).lookup "major" = none ∨
         (collectComps contents patterns).lookup "minor" = none ∨
         (collectComps contents patterns).lookup "patch" = none) :
    readVersion contents patterns = none := by
  simp only [readVersion, Option.bind_eq_bind]
  cases hc : convComps (collectComps contents patterns) with
  | none => rfl
  | some comps =>
    simp only [Option.some_bind]
    rcases h with h | h | h
    · have h' := convComps_lookup_none "major" hc h
      simp [mkVersion, h']
    · have h' := convComps_lookup_none "minor" hc h
      cases hmj : comps.lookup "major" <;> simp [mkVersion, hmj, h']
    · have h' := convComps_lookup_none "patch" hc h
      cases hmj : comps.lookup "major" <;>
        cases hmn : comps.lookup "minor" <;>
          simp [mkVersion, hmj, hmn, h']

/-- Claim C4: when, after applying all configured patterns to the first
configured file's contents, any of the names major/minor/patch remains
unresolved, version extraction fails (the `Version(**comps)` constructor
raises — the spec's `VersionNotFoundError`) and the run terminates with
the extraction error **before any mutation**: the event trace is empty
(no file write, no staging, no commit, no tag, no push). -/
theorem C4_fails_before_mutation (e : MainEnv) (c0 : Str) (cs : List Str)
    (hb : e.branchOk = true) (hw : e.dirtyWorktree = false)
    (hs : e.dirtyStaged = false) (hcont : e.contents = c0 :: cs)
    (hmiss : (collectComps c0 e.patterns).lookup "major" = none ∨
             (collectComps c0 e.patterns).lookup "minor" = none ∨
             (collectComps c0 e.patterns).lookup "patch" = none) :
    runMain e = (.versionError, []) := by
  have hr : readVersion (e.contents.head?.getD []) e.patterns = none := by
    rw [hcont]
    exact readVersion_none hmiss
  simp [runMain, hb, hw, hs, hr]

/-- Witness for C4: an empty pattern list resolves nothing. -/
theorem C4_witness :
    (collectComps (str "x") eNoVersion.patterns).lookup "major" = none ∧
    runMain eNoVersion = (.versionError, []) :=
  ⟨by decide,
   C4_fails_before_mutation eNoVersion (str "x") [] rfl rfl rfl rfl
     (Or.inl (by decide))⟩

/-! ## Claim C5 — commit-failure recovery applied exactly once -/

theorem commitTries_append (a b : List Event) :
    commitTries (a ++ b) = commitTries a + commitTries b := by
  induction a with
  | nil => simp [commitTries]
  | cons ev evs ih =>
    cases ev <;> simp [commitTries, ih] <;> omega

theorem commitTries_added_map (l : List String) :
    commitTries (l.map (fun _ => Event.added)) = 0 := by
  induction l with
  | nil => rfl
  | cons x xs ih => simpa [commitTries] using ih

theorem commitTries_added_replicate (n : Nat) :
    commitTries (List.replicate n Event.added) = 0 := by
  induction n with
  | zero => rfl
  | succ n ih => simpa [commitTries, List.replicate] using ih

/-- Claim C5: when the first commit invocation fails, the recovery rule
runs exactly once — empty worktree-change set is fatal ("no files
changed", a single commit attempt); a change set not contained in the
staged set is fatal ("unexpected files changed", a single commit
attempt); otherwise the changed files are re-staged and the commit is
retried exactly once (two commit attempts in total), the retry's failure
propagating with no further attempt. -/
theorem C5_commit_retry (e : CommitEnv) (hf : e.firstOk = false) :
    (e.worktree = [] →
      commitStepRun e = (.fatalNoFiles, [.commitAttempt false]) ∧
      commitTries (commitStepRun e).2 = 1) ∧
    (e.worktree ≠ [] →
      e.worktree.all (fun f => e.staged.contains f) = false →
      commitStepRun e = (.fatalUnexpected, [.commitAttempt false]) ∧
      commitTries (commitStepRun e).2 = 1) ∧
    (e.worktree ≠ [] →
      e.worktree.all (fun f => e.staged.contains f) = true →
      (commitStepRun e).1 =
        (if e.secondOk then .committed 2 e.worktree else .uncaught 2) ∧
      commitTries (commitStepRun e).2 = 2) := by
  refine ⟨?_, ?_, ?_⟩
  · intro hwt
    have hie : e.worktree.isEmpty = true := by rw [hwt]; rfl
    have hcs : commitStepRun e = (.fatalNoFiles, [.commitAttempt false]) := by
      unfold commitStepRun
      rw [hf, hie]
      simp
    rw [hcs]
    exact ⟨rfl, rfl⟩
  · intro hwt hsub
    have hie : e.worktree.isEmpty = false := by
      cases hwl : e.worktree
      · exact absurd hwl hwt
      · rfl
    have hcs : commitStepRun e = (.fatalUnexpected, [.commitAttempt false]) := by
      unfold commitStepRun
      rw [hf, hie, hsub]
      simp
    rw [hcs]
    exact ⟨rfl, rfl⟩
  · intro hwt hsub
    have hie : e.worktree.isEmpty = false := by
      cases hwl : e.worktree
      · exact absurd hwl hwt
      · rfl
    have hcs : commitStepRun e =
        (if e.secondOk then
          (.committed 2 e.worktree,
            .commitAttempt false :: e.worktree.map (fun _ => .added)
              ++ [.commitAttempt true])
         else
          (.uncaught 2,
            .commitAttempt false :: e.worktree.map (fun _ => .added)
              ++ [.commitAttempt false])) := by
      unfold commitStepRun
      rw [hf, hie, hsub]
      simp
    rw [hcs]
    cases hsec : e.secondOk <;>
      simp [commitTries, commitTries_append, commitTries_added_map,
        commitTries_added_replicate]

/-- Witness for C5: a failing first commit with one re-stageable changed
file is retried exactly once and succeeds. -/
theorem C5_witness :
    eCommitRetry.firstOk = false ∧ eCommitRetry.worktree ≠ [] ∧
    eCommitRetry.worktree.all (fun f => eCommitRetry.staged.contains f) = true ∧
    ((commitStepRun eCommitRetry).1 =
      (if eCommitRetry.secondOk then .committed 2 eCommitRetry.worktree
       else .uncaught 2) ∧
     commitTries (commitStepRun eCommitRetry).2 = 2) :=
  ⟨rfl, by decide, by decide,
   (C5_commit_retry eCommitRetry rfl).2.2 (by decide) (by decide)⟩

/-! ## Claim C9 — the changelog seed text -/

theorem splitlinesGo_append (l : Str) : ∀ (acc rest : Str),
    (∀ c ∈ l, c ≠ '\n') →
    splitlinesGo acc (l ++ '\n' :: rest) =
      (acc.reverse ++ l) :: splitlinesStr rest := by
  induction l with
  | nil =>
    intro acc rest _
    by_cases hr : rest = []
    · subst hr
      simp [splitlinesGo, splitlinesStr]
    · simp [splitlinesGo, splitlinesStr, hr]
  | cons a l ih =>
    intro acc rest hnl
    have ha : a ≠ '\n' := hnl a (List.mem_cons_self ..)
    simp only [List.cons_append, splitlinesGo, if_neg ha]
    rw [show l.append ('\n' :: rest) = l ++ '\n' :: rest from rfl,
      ih (a :: acc) rest (fun c hc => hnl c (List.mem_cons_of_mem _ hc))]
    simp

theorem splitlines_line (l rest : Str) (hnl : ∀ c ∈ l, c ≠ '\n') :
    splitlinesStr (l ++ '\n' :: rest) = l :: splitlinesStr rest := by
  have hne : l ++ '\n' :: rest ≠ [] := by simp
  rw [splitlinesStr, if_neg hne, splitlinesGo_append l [] rest hnl]
  simp

theorem no_nl_append {a b : Str} (ha : ∀ c ∈ a, c ≠ '\n')
    (hb : ∀ c ∈ b, c ≠ '\n') : ∀ c ∈ a ++ b, c ≠ '\n' := by
  intro c hc
  rcases List.mem_append.mp hc with h | h
  · exact ha c h
  · exact hb c h

theorem digit_ne_nl {c : Char} (h : isDigitCh c = true) : c ≠ '\n' := by
  intro hc
  subst hc
  exact absurd h (by decide)

theorem natChars_no_nl (n : Nat) : ∀ c ∈ natChars n, c ≠ '\n' :=
  fun c hc => digit_ne_nl (natChars_digits n c hc)

theorem renderVersion_no_nl (v : Version) : ∀ c ∈ renderVersion v, c ≠ '\n' := by
  have hdot : ∀ c ∈ (['.'] : Str), c ≠ '\n' := by decide
  have hsh : renderVersion v =
      natChars v.major ++ (['.'] ++ (natChars v.minor ++
        (['.'] ++ natChars v.patch))) := by
    simp [renderVersion, List.append_assoc]
  rw [hsh]
  exact no_nl_append (natChars_no_nl v.major)
    (no_nl_append hdot (no_nl_append (natChars_no_nl v.minor)
      (no_nl_append hdot (natChars_no_nl v.patch))))

theorem splitlines_subjects (commits : List Str) (tail : Str)
    (hnl : ∀ c ∈ commits, '\n' ∉ c) :
    splitlinesStr
        (commits.flatMap (fun c => str "# - " ++ c ++ ['\n']) ++ tail) =
      commits.map (fun c => str "# - " ++ c) ++ splitlinesStr tail := by
  induction commits with
  | nil => simp
  | cons c cs ih =>
    have hline : ∀ x ∈ str "# - " ++ c, x ≠ '\n' :=
      no_nl_append (by decide)
        (fun x hx hxeq => hnl c (List.mem_cons_self ..) (hxeq ▸ hx))
    rw [List.flatMap_cons, List.map_cons]
    rw [show ((str "# - " ++ c ++ ['\n']) ++
        cs.flatMap (fun c => str "# - " ++ c ++ ['\n'])) ++ tail =
        (str "# - " ++ c) ++ '\n' ::
          (cs.flatMap (fun c => str "# - " ++ c ++ ['\n']) ++ tail) from by
      simp [List.append_assoc]]
    rw [splitlines_line (str "# - " ++ c) _ hline,
      ih (fun x hx => hnl x (List.mem_cons_of_mem _ hx))]
    simp

theorem seed_lines_pos (oldV newV : Version) (commits : List Str) (body : Str)
    (hne : commits ≠ []) (hnl : ∀ c ∈ commits, '\n' ∉ c) :
    splitlinesStr (changelogSeed oldV newV commits body) =
      seedHeaderLines newV ++ commitsHeaderLines oldV ++
        commits.map (fun c => str "# - " ++ c) ++
        (if body = [] then [] else [] :: splitlinesStr body) := by
  have hl1 : ∀ c ∈ str "# Please enter the changelog entry for version " ++
      (renderVersion newV ++ ['.']), c ≠ '\n' :=
    no_nl_append (by decide)
      (no_nl_append (renderVersion_no_nl newV) (by decide))
  have hl2 : ∀ c ∈ str "# Lines starting with " ++
      ([squote, '#', squote] ++ str " will be ignored."), c ≠ '\n' := by decide
  have hlh : ∀ c ∈ (['#'] : Str), c ≠ '\n' := by decide
  have hlc : ∀ c ∈ str "# Commits since version " ++
      (renderVersion oldV ++ [':']), c ≠ '\n' :=
    no_nl_append (by decide)
      (no_nl_append (renderVersion_no_nl oldV) (by decide))
  have hshape : changelogSeed oldV newV commits body =
      (str "# Please enter the changelog entry for version " ++
        (renderVersion newV ++ ['.'])) ++ '\n' ::
      ((str "# Lines starting with " ++
        ([squote, '#', squote] ++ str " will be ignored.")) ++ '\n' ::
      (['#'] ++ '\n' ::
      ((str "# Commits since version " ++ (renderVersion oldV ++ [':'])) ++ '\n' ::
      (['#'] ++ '\n' ::
      (commits.flatMap (fun c => str "# - " ++ c ++ ['\n']) ++
        (if body ≠ [] then '\n' :: body else [])))))) := by
    rw [changelogSeed, if_pos hne,
      show str ".\n" = ['.'] ++ ['\n'] from rfl,
      show str " will be ignored.\n" = str " will be ignored." ++ ['\n'] from rfl,
      show str "#\n# Commits since version " =
        ['#'] ++ ['\n'] ++ str "# Commits since version " from rfl,
      show str ":\n#\n" = [':'] ++ ['\n'] ++ (['#'] ++ ['\n']) from rfl]
    simp [List.append_assoc]
  rw [hshape,
    splitlines_line _ _ hl1,
    splitlines_line _ _ hl2,
    splitlines_line _ _ hlh,
    splitlines_line _ _ hlc,
    splitlines_line _ _ hlh,
    splitlines_subjects commits _ hnl]
  by_cases hb : body = []
  · subst hb
    simp [seedHeaderLines, commitsHeaderLines, splitlinesStr]
  · rw [if_pos hb, if_neg hb,
      show ('\n' :: body) = [] ++ '\n' :: body from rfl,
      splitlines_line [] body (fun c hc => absurd hc (List.not_mem_nil c))]
    simp [seedHeaderLines, commitsHeaderLines]

theorem seed_lines_nil (oldV newV : Version) (body : Str) :
    splitlinesStr (changelogSeed oldV newV [] body) =
      seedHeaderLines newV ++
        (if body = [] then [] else [] :: splitlinesStr body) := by
  have hl1 : ∀ c ∈ str "# Please enter the changelog entry for version " ++
      (renderVersion newV ++ ['.']), c ≠ '\n' :=
    no_nl_append (by decide)
      (no_nl_append (renderVersion_no_nl newV) (by decide))
  have hl2 : ∀ c ∈ str "# Lines starting with " ++
      ([squote, '#', squote] ++ str " will be ignored."), c ≠ '\n' := by decide
  have hshape : changelogSeed oldV newV [] body =
      (str "# Please enter the changelog entry for version " ++
        (renderVersion newV ++ ['.'])) ++ '\n' ::
      ((str "# Lines starting with " ++
        ([squote, '#', squote] ++ str " will be ignored.")) ++ '\n' ::
      (if body ≠ [] then '\n' :: body else [])) := by
    rw [changelogSeed, if_neg (by simp),
      show str ".\n" = ['.'] ++ ['\n'] from rfl,
      show str " will be ignored.\n" = str " will be ignored." ++ ['\n'] from rfl]
    simp [List.append_assoc]
  rw [hshape, splitlines_line _ _ hl1, splitlines_line _ _ hl2]
  by_cases hb : body = []
  · subst hb
    simp [seedHeaderLines, splitlinesStr]
  · rw [if_pos hb, if_neg hb,
      show ('\n' :: body) = [] ++ '\n' :: body from rfl,
      splitlines_line [] body (fun c hc => absurd hc (List.not_mem_nil c))]
    simp [seedHeaderLines]

theorem subjectOf_nil : subjectOf [] = none := by decide

theorem subjectOf_hash : subjectOf ['#'] = none := by decide

theorem subjectOf_cons3_ne {c : Char} (hc : ('-' == c) = false) (rest : Str) :
    subjectOf ('#' :: ' ' :: c :: rest) = none := by
  have hpre : (str "# - ").isPrefixOf ('#' :: ' ' :: c :: rest) = false := by
    rw [show str "# - " = ['#', ' ', '-', ' '] from rfl]
    simp [List.isPrefixOf, hc]
  unfold subjectOf
  rw [hpre]
  simp

theorem subjectOf_lit_P (x : Str) :
    subjectOf (str "# Please enter the changelog entry for version " ++ x) =
      none := by
  rw [show str "# Please enter the changelog entry for version " ++ x =
    '#' :: ' ' :: 'P' ::
      (str "lease enter the changelog entry for version " ++ x) from rfl]
  exact subjectOf_cons3_ne (by decide) _

theorem subjectOf_lit_L (x : Str) :
    subjectOf (str "# Lines starting with " ++ x) = none := by
  rw [show str "# Lines starting with " ++ x =
    '#' :: ' ' :: 'L' :: (str "ines starting with " ++ x) from rfl]
  exact subjectOf_cons3_ne (by decide) _

theorem subjectOf_lit_C (x : Str) :
    subjectOf (str "# Commits since version " ++ x) = none := by
  rw [show str "# Commits since version " ++ x =
    '#' :: ' ' :: 'C' :: (str "ommits since version " ++ x) from rfl]
  exact subjectOf_cons3_ne (by decide) _

theorem subjectOf_dash (c : Str) : subjectOf (str "# - " ++ c) = some c := by
  have h1 : str "# - " ++ c = '#' :: ' ' :: '-' :: ' ' :: c := rfl
  have hpre : (str "# - ").isPrefixOf ('#' :: ' ' :: '-' :: ' ' :: c) = true := by
    rw [show str "# - " = ['#', ' ', '-', ' '] from rfl]
    simp [List.isPrefixOf]
  unfold subjectOf
  rw [h1, hpre]
  simp

theorem filterMap_subjects (commits : List Str) :
    List.filterMap (subjectOf ∘ fun c => str "# - " ++ c) commits = commits := by
  induction commits with
  | nil => rfl
  | cons c cs ih =>
    simp [List.filterMap_cons, Function.comp, subjectOf_dash, ih]

/-- Claim C9: the changelog seed text is the two instructional comment
lines, then — exactly when there are commits since the old version's
tag — the commented commit-list header followed by exactly the commit
subject lines in order, each as a `"# - "` line, then (after a blank
line) the existing unreleased body; the `"# - "` lines of the seed are
exactly the commit subjects; and when the old tag does not resolve,
`commits_since` returns the empty list rather than failing, so no commit
list is included. -/
theorem C9_seed (oldV newV : Version) (commits : List Str) (body logOut : Str)
    (hnl : ∀ c ∈ commits, '\n' ∉ c)
    (hbody : ∀ l ∈ splitlinesStr body, subjectOf l = none) :
    splitlinesStr (changelogSeed oldV newV commits body) =
      seedHeaderLines newV ++
        (if commits = [] then []
         else commitsHeaderLines oldV ++
           commits.map (fun c => str "# - " ++ c)) ++
        (if body = [] then [] else [] :: splitlinesStr body) ∧
    (splitlinesStr (changelogSeed oldV newV commits body)).filterMap subjectOf =
      commits ∧
    commitsSince false logOut = [] := by
  by_cases hc : commits = []
  · subst hc
    have hlines := seed_lines_nil oldV newV body
    refine ⟨by rw [hlines]; simp, ?_, rfl⟩
    rw [hlines]
    by_cases hb : body = []
    · subst hb
      simp [seedHeaderLines, List.filterMap_append, List.filterMap_cons,
        subjectOf_lit_P, subjectOf_lit_L]
    · rw [if_neg hb]
      simp [seedHeaderLines, List.filterMap_append, List.filterMap_cons,
        subjectOf_lit_P, subjectOf_lit_L, subjectOf_nil,
        List.filterMap_eq_nil_iff.mpr hbody]
  · have hlines := seed_lines_pos oldV newV commits body hc hnl
    refine ⟨by rw [hlines]; simp [hc, List.append_assoc], ?_, rfl⟩
    rw [hlines]
    by_cases hb : body = []
    · subst hb
      simp [seedHeaderLines, commitsHeaderLines, List.filterMap_append,
        List.filterMap_cons, subjectOf_lit_P, subjectOf_lit_L, subjectOf_hash,
        subjectOf_lit_C, filterMap_subjects]
    · rw [if_neg hb]
      simp [seedHeaderLines, commitsHeaderLines, List.filterMap_append,
        List.filterMap_cons, subjectOf_lit_P, subjectOf_lit_L, subjectOf_hash,
        subjectOf_lit_C, filterMap_subjects, subjectOf_nil,
        List.filterMap_eq_nil_iff.mpr hbody]

/-- Witness for C9: the specification's own example — three commit
subjects after tag `v0.1.0`. -/
theorem C9_witness :
    (∀ c ∈ [str "Implement feature", str "Fix test", str "Fix linter"],
      '\n' ∉ c) ∧
    (splitlinesStr (changelogSeed ⟨0, 1, 0⟩ ⟨0, 1, 1⟩
        [str "Implement feature", str "Fix test", str "Fix linter"]
        [])).filterMap subjectOf =
      [str "Implement feature", str "Fix test", str "Fix linter"] :=
  ⟨by decide,
   (C9_seed ⟨0, 1, 0⟩ ⟨0, 1, 1⟩
      [str "Implement feature", str "Fix test", str "Fix linter"] [] []
      (by decide) (by decide)).2.1⟩

/-! ## Claim C1 — declining the changelog confirmation -/

theorem writeFilesStep_no_chlog (ps : List Pattern) (v : Version) :
    ∀ (cs : List Str) (i : Nat) (c : Str),
      Event.wroteChangelog c ∉ (writeFilesStep ps v cs i).1 := by
  intro cs
  induction cs with
  | nil =>
    intro i c h
    simp [writeFilesStep] at h
  | cons x cs ih =>
    intro i c h
    simp only [writeFilesStep] at h
    cases hw : writeVersion x ps v with
    | none => rw [hw] at h; simp at h
    | some nc =>
      rw [hw] at h
      simp only [List.mem_cons] at h
      rcases h with h | h | h
      · exact Event.noConfusion h
      · exact Event.noConfusion h
      · exact ih (i + 1) c h

theorem commitStepRun_no_chlog (e : CommitEnv) (c : Str) :
    Event.wroteChangelog c ∉ (commitStepRun e).2 := by
  unfold commitStepRun
  split_ifs <;> simp

theorem releaseTail_no_chlog (e : MainEnv) (v : Version) (c : Str) :
    Event.wroteChangelog c ∉ (releaseTail e v).2 := by
  rcases hw : writeFilesStep e.patterns v e.contents 0 with ⟨wev, ok⟩
  rcases hcr : commitStepRun e.commitEnv with ⟨cr, cev⟩
  have hwmem : Event.wroteChangelog c ∉ wev := by
    have := writeFilesStep_no_chlog e.patterns v e.contents 0 c
    rw [hw] at this
    exact this
  have hcmem : Event.wroteChangelog c ∉ cev := by
    have := commitStepRun_no_chlog e.commitEnv c
    rw [hcr] at this
    exact this
  simp only [releaseTail, hw, hcr]
  cases ok with
  | false => simpa using hwmem
  | true =>
    cases cr with
    | committed n rs =>
        cases ht : e.tagOk <;> cases hp : e.pushOk <;>
          simp [ht, hp, List.mem_append, hwmem, hcmem]
    | fatalNoFiles => simp [List.mem_append, hwmem, hcmem]
    | fatalUnexpected => simp [List.mem_append, hwmem, hcmem]
    | uncaught n => simp [List.mem_append, hwmem, hcmem]

/-- Claim C1 as stated is false: declining the changelog-entry
confirmation (`n` to "Use this changelog entry?") does **not** abort the
release.  `update_changelog` merely returns without writing; `main` then
stages the changelog path, rewrites the version file, commits, tags and
pushes, completing the release.  On this concrete healthy run with the
confirmation declined, the trace contains a successful commit, tag and
push, contradicting "no commit, no tag and no push are performed". -/
theorem C1_counterexample :
    updateChangelog ⟨1, 2, 3⟩ ⟨1, 2, 4⟩ ceDecline = .declined ∧
    runMain eDecline = (.completed,
      [.added, .wroteFile 0 (str "1.2.4"), .added, .commitAttempt true,
       .tagAttempt true, .pushAttempt true]) := by
  decide

/-- Claim C1, amended: declining the changelog-entry confirmation only
skips writing the changelog file — the run's trace never contains a
changelog write.  It does not abort the release: `main` continues exactly
as it would have with a written changelog (staging the changelog path,
then version-file rewrite, commit with retry rule, tag, atomic push);
the file writes/staging already performed are not undone. -/
theorem C1_declined_continues (e : MainEnv) (oldV : Version)
    (ce : ChangelogEnv)
    (hb : e.branchOk = true) (hw : e.dirtyWorktree = false)
    (hs : e.dirtyStaged = false)
    (hv : readVersion (e.contents.head?.getD []) e.patterns = some oldV)
    (hc : e.confirmBump = true) (hce : e.changelogEnv = some ce)
    (hd : updateChangelog oldV (bumpComp e.comp oldV) ce = .declined) :
    runMain e = ((releaseTail e (bumpComp e.comp oldV)).1,
      .added :: (releaseTail e (bumpComp e.comp oldV)).2) ∧
    ∀ c, Event.wroteChangelog c ∉ (runMain e).2 := by
  have hrun : runMain e = ((releaseTail e (bumpComp e.comp oldV)).1,
      .added :: (releaseTail e (bumpComp e.comp oldV)).2) := by
    simp [runMain, hb, hw, hs, hv, hc, hce, hd]
  refine ⟨hrun, ?_⟩
  intro c hmem
  rw [hrun] at hmem
  rcases List.mem_cons.mp hmem with h | h
  · exact Event.noConfusion h
  · exact releaseTail_no_chlog e _ c h

/-- Witness for C1 (amended) on the concrete declined run. -/
theorem C1_witness :
    eDecline.changelogEnv = some ceDecline ∧
    updateChangelog ⟨1, 2, 3⟩ (bumpComp eDecline.comp ⟨1, 2, 3⟩) ceDecline =
      .declined ∧
    (runMain eDecline =
      ((releaseTail eDecline (bumpComp eDecline.comp ⟨1, 2, 3⟩)).1,
        .added :: (releaseTail eDecline (bumpComp eDecline.comp ⟨1, 2, 3⟩)).2) ∧
      ∀ c, Event.wroteChangelog c ∉ (runMain eDecline).2) :=
  ⟨rfl, by decide,
   C1_declined_continues eDecline ⟨1, 2, 3⟩ ceDecline rfl rfl rfl (by decide)
     rfl rfl (by decide)⟩

end ReleaseVersion
